import Mathlib

/- Verification development for the hive-browser sequence-library server.
The definitions below are a shallow embedding of the Python sources under
src/hive: tool failure containment and result auto-summarization
(tools/base.py), the BLAST subprocess command builder (deps/blast.py), the
external-tool quarantine gate (tools/quarantine.py), the ingestion pipeline
(watcher/ingest.py), the sequence resolver (tools/resolve.py), the fuzzy
search tool (tools/search.py), the extract tool (tools/extract.py) and the
agentic router loop (tools/router.py). -/

/-- Apostrophe character as a string (used in tool error messages). -/
def apos : String := (Char.ofNat 39).toString

/-- JSON-like values, modelling the Python objects that flow through tool
results. Numbers are modelled as integers; the int/float distinction is
immaterial to every claim below. -/
inductive JVal where
  | null : JVal
  | bool (b : Bool) : JVal
  | num (n : Int) : JVal
  | str (s : String) : JVal
  | list (xs : List JVal) : JVal
  | obj (fields : List (String × JVal)) : JVal

/- ── Tool failure containment (src/hive/tools/base.py, Tool.__init_subclass__,
lines 40-58).  A concrete subclass's `execute` body is modelled as a function
returning `Except String result`: `Except.error` stands for a raised Python
exception.  The wrapper installed at class-definition time filters the router
kwargs down to the parameters the subclass accepts, calls the original body,
and converts any exception into the fixed error dict. -/

/-- The message of the error dict produced by the failure wrapper
(base.py line 56). -/
def toolFailedMsg (name : String) : String :=
  "Tool " ++ apos ++ name ++ apos ++ " failed. Check server logs."

/-- The result dict returned when a tool body raises (base.py line 56). -/
def errorDict (name : String) : List (String × JVal) :=
  [("error", JVal.str (toolFailedMsg name))]

/-- Kwarg filtering of the wrapper (base.py line 52): only kwargs whose key is
among the subclass's declared parameters are passed through. -/
def filterKwargs (accepted : List String) (kw : List (String × JVal)) :
    List (String × JVal) :=
  kw.filter (fun p => accepted.contains p.1)

/-- The `_safe_execute` wrapper (base.py lines 50-56): call the original body
with the filtered kwargs; on an exception return `errorDict name`. -/
def safeExecute (name : String) (accepted : List String)
    (original : List (String × JVal) → List (String × JVal) →
      Except String (List (String × JVal)))
    (params : List (String × JVal)) (kw : List (String × JVal)) :
    List (String × JVal) :=
  match original params (filterKwargs accepted kw) with
  | Except.ok r => r
  | Except.error _ => errorDict name

/- ── BLAST command construction (src/hive/deps/blast.py, run_search,
lines 144-196).  A kwarg value is either Python `None`, a bool, or any other
value (represented here by its `str()` rendering, which is all the command
builder uses). -/

/-- A value passed in `**params` of `run_search`. -/
inductive PyParamVal where
  | pynone : PyParamVal
  | pybool (b : Bool) : PyParamVal
  | pyother (s : String) : PyParamVal

/-- The blocked parameter keys (blast.py lines 181-186). -/
def blockedBlastKeys : List String :=
  ["outfmt", "out", "query", "db", "remote", "html",
   "import_search_strategy", "export_search_strategy",
   "gilist", "negative_gilist", "seqidlist", "negative_seqidlist",
   "entrez_query", "blastdb_version"]

/-- Command-line fragment contributed by one kwarg (blast.py lines 187-195):
`None` values and blocked keys are skipped; a bool value appends the bare
flag when true; any other value appends the flag and `str(value)`. -/
def blastParamArgs (p : String × PyParamVal) : List String :=
  match p with
  | (_, PyParamVal.pynone) => []
  | (key, v) =>
    if blockedBlastKeys.contains key then []
    else
      match v with
      | PyParamVal.pybool b => if b then ["-" ++ key] else []
      | PyParamVal.pyother s => ["-" ++ key, s]
      | PyParamVal.pynone => []

/-- Whether a kwarg is skipped by the `continue` in blast.py line 189. -/
def blastParamSkipped (p : String × PyParamVal) : Bool :=
  (match p.2 with
   | PyParamVal.pynone => true
   | _ => false) || blockedBlastKeys.contains p.1

/-- The fixed tabular output format string (blast.py lines 176-177). -/
def blastOutfmt : String :=
  "6 sseqid pident length mismatch gapopen qstart qend sstart send evalue bitscore"

/-- The full command line built by `run_search` (blast.py lines 171-195):
fixed head, then the per-kwarg fragments in mapping order. -/
def run_search_cmd (binary queryFile dbFile : String)
    (params : List (String × PyParamVal)) : List String :=
  [binary, "-query", queryFile, "-db", dbFile, "-outfmt", blastOutfmt]
    ++ (params.map blastParamArgs).flatten

/-- The kwargs that actually contribute to the command line. -/
def effectiveBlastParams (params : List (String × PyParamVal)) :
    List (String × PyParamVal) :=
  params.filter (fun p => !blastParamSkipped p)

/- ── External-tool quarantine (src/hive/tools/quarantine.py, sync_quarantine,
lines 46-112).  A directory entry carries the data the function reads from
the file system: the filename, the SHA-256 hex digest of the file bytes
(compute_hash) and the tool name pulled out of the source by
extract_tool_name.  The ToolApproval table is modelled as a partial map from
filename to row; created_at is set by the database and never touched by
sync_quarantine, so it is omitted from the row model. -/

structure FileEntry where
  filename : String
  file_hash : String
  tool_name : Option String
deriving DecidableEq

structure ToolApproval where
  filename : String
  file_hash : String
  tool_name : Option String
  status : String
  reviewed_at : Option Nat
deriving DecidableEq

/-- The ToolApproval table, keyed by its UNIQUE filename column. -/
abbrev ApprovalDb := String → Option ToolApproval

/-- The row created for a previously unknown file (quarantine.py lines 86-91);
reviewed_at stays at its NULL default. -/
def quarantineRow (f : FileEntry) : ToolApproval :=
  { filename := f.filename, file_hash := f.file_hash, tool_name := f.tool_name,
    status := "quarantined", reviewed_at := none }

/-- The in-place update applied to an approved row whose content changed
(quarantine.py lines 98-101). -/
def requarantinedRow (r : ToolApproval) (f : FileEntry) : ToolApproval :=
  { r with
    file_hash := f.file_hash,
    tool_name := f.tool_name,
    status := "quarantined",
    reviewed_at := none }

/-- One iteration of the per-file loop (quarantine.py lines 72-108): returns
the updated table and whether the filename joined the approved set. -/
def syncStep (db : ApprovalDb) (f : FileEntry) : ApprovalDb × Bool :=
  match db f.filename with
  | none =>
      (fun n => if n = f.filename then some (quarantineRow f) else db n, false)
  | some record =>
      if record.status = "approved" then
        if record.file_hash = f.file_hash then (db, true)
        else
          (fun n => if n = f.filename then some (requarantinedRow record f)
                    else db n, false)
      else (db, false)

/-- The whole per-file loop over the prepared file list. -/
def syncFiles (db : ApprovalDb) : List FileEntry → ApprovalDb × List String
  | [] => (db, [])
  | f :: fs =>
      let step := syncStep db f
      let rest := syncFiles step.1 fs
      (rest.1, if step.2 then f.filename :: rest.2 else rest.2)

def listIsPfx : List Char → List Char → Bool
  | [], _ => true
  | _ :: _, [] => false
  | c :: cs, d :: ds => c == d && listIsPfx cs ds

def strHasPfx (p s : String) : Bool := listIsPfx p.data s.data

def strHasSfx (p s : String) : Bool := listIsPfx p.data.reverse s.data.reverse

/-- The glob filter of quarantine.py lines 64-66: `*.py` files whose name
does not start with an underscore. -/
def isExternalToolFile (name : String) : Bool :=
  strHasSfx ".py" name && !(strHasPfx "_" name)

def insertByName (f : FileEntry) : List FileEntry → List FileEntry
  | [] => [f]
  | g :: gs =>
      if f.filename ≤ g.filename then f :: g :: gs else g :: insertByName f gs

/-- The `sorted(...)` of quarantine.py lines 64-66, as an insertion sort. -/
def sortByName : List FileEntry → List FileEntry
  | [] => []
  | f :: fs => insertByName f (sortByName fs)

/-- `sync_quarantine` (quarantine.py lines 46-112) over a directory listing:
filter to external tool files, sort by name, then run the per-file loop. -/
def sync_quarantine (db : ApprovalDb) (dirFiles : List FileEntry) :
    ApprovalDb × List String :=
  syncFiles db (sortByName (dirFiles.filter (fun f => isExternalToolFile f.filename)))

/-- The row stored for a file after its iteration, as a function of the
previously stored row. -/
def syncOutcomeRow (prev : Option ToolApproval) (f : FileEntry) :
    Option ToolApproval :=
  match prev with
  | none => some (quarantineRow f)
  | some r =>
      if r.status = "approved" then
        if r.file_hash = f.file_hash then some r else some (requarantinedRow r f)
      else some r

/-- Whether a file's iteration puts it into the approved set, as a function
of the previously stored row. -/
def syncOutcomeApproved (prev : Option ToolApproval) (f : FileEntry) : Bool :=
  match prev with
  | none => false
  | some r => decide (r.status = "approved") && decide (r.file_hash = f.file_hash)

/- ── Result auto-summarization (src/hive/tools/base.py, summary_for_llm
lines 89-93 and _auto_summarize lines 181-228).  A tool result is a Python
dict, modelled as an ordered association list of string keys to JVal. -/

/-- First n characters of a string (Python `s[:n]`). -/
def strTake (n : Nat) (s : String) : String := String.mk (s.data.take n)

/-- The scalar test of the item/dict trimming (base.py lines 200, 219):
`isinstance(v, (str, int, float, bool, type(None)))`. -/
def isScalarJ : JVal → Bool
  | JVal.str _ => true
  | JVal.num _ => true
  | JVal.bool _ => true
  | JVal.null => true
  | _ => false

/-- The string-length side condition of the trimming (base.py lines 201, 220):
`not isinstance(v, str) or len(v) < 200`. -/
def scalarShortStr : JVal → Bool
  | JVal.str s => decide (s.length < 200)
  | _ => true

/-- The dict comprehension keeping only shallow scalar fields with short
strings (base.py lines 198-202 and 217-221). -/
def trimItem (fields : List (String × JVal)) : List (String × JVal) :=
  fields.filter (fun kv => isScalarJ kv.2 && scalarShortStr kv.2)

/-- Trimming of one sample item (base.py lines 198-202).  The source calls
`item.items()`, so a non-dict item in a dict-headed sample list raises
AttributeError (base.py line 199); `Except.error` models that raise. -/
def trimSampleItem : JVal → Except String JVal
  | JVal.obj fields => Except.ok (JVal.obj (trimItem fields))
  | _ => Except.error "AttributeError"

/-- The sample-building loop over `value[:max_items]` (base.py
lines 197-203): the first non-dict item aborts it with the raise above. -/
def trimSamples : List JVal → Except String (List JVal)
  | [] => Except.ok []
  | x :: xs =>
      match trimSampleItem x with
      | Except.error e => Except.error e
      | Except.ok y =>
          match trimSamples xs with
          | Except.error e => Except.error e
          | Except.ok ys => Except.ok (y :: ys)

/-- The assignments `stats[...] = ...` performed for one result entry
(base.py lines 192-223), in execution order.  `Except.error` is the
AttributeError escaping from the sample loop; the count assignment made
before the raise is unobservable (the exception aborts the whole
_auto_summarize call), so a failing entry fails the entry as a whole. -/
def entryStats (maxItems : Nat) (key : String) (value : JVal) :
    Except String (List (String × JVal)) :=
  match value with
  | JVal.list xs =>
      let countPair := (key ++ "_count", JVal.num (xs.length : Int))
      match xs with
      | [] => Except.ok [countPair]
      | x :: _ =>
          match x with
          | JVal.obj _ =>
              match trimSamples (xs.take maxItems) with
              | Except.error e => Except.error e
              | Except.ok sample =>
                  if sample.isEmpty then Except.ok [countPair]
                  else Except.ok [countPair, (key ++ "_sample", JVal.list sample)]
          | _ =>
              Except.ok [countPair, (key ++ "_sample", JVal.list (xs.take maxItems))]
  | JVal.num n => Except.ok [(key, JVal.num n)]
  | JVal.bool b => Except.ok [(key, JVal.bool b)]
  | JVal.str s =>
      if s.length < 200 then Except.ok [(key, JVal.str s)]
      else Except.ok [(key, JVal.str (strTake 100 s ++ "..."))]
  | JVal.obj fields =>
      let shallow := trimItem fields
      if shallow.isEmpty then Except.ok [] else Except.ok [(key, JVal.obj shallow)]
  | JVal.null => Except.ok []

/-- Python dict assignment `d[k] = v` on an insertion-ordered association
list: overwrite in place if the key exists, else append. -/
def dictSet (l : List (String × JVal)) (k : String) (v : JVal) :
    List (String × JVal) :=
  if l.any (fun p => p.1 == k) then
    l.map (fun p => if p.1 == k then (p.1, v) else p)
  else l ++ [(k, v)]

/-- Python dict lookup `d.get(k)`. -/
def lookupJ (l : List (String × JVal)) (k : String) : Option JVal :=
  (l.find? (fun p => p.1 == k)).map (fun p => p.2)

/-- The `for key, value in result.items()` loop of _auto_summarize (base.py
lines 190-223): each entry's assignments land in the stats dict in order; a
raised AttributeError aborts the loop (and the whole call). -/
def summaryStatsAux (maxItems : Nat) :
    List (String × JVal) → List (String × JVal) →
    Except String (List (String × JVal))
  | acc, [] => Except.ok acc
  | acc, kv :: rest =>
      match entryStats maxItems kv.1 kv.2 with
      | Except.error e => Except.error e
      | Except.ok ps =>
          summaryStatsAux maxItems (ps.foldl (fun a p => dictSet a p.1 p.2) acc) rest

/-- The stats dict built by the loop of _auto_summarize, from the empty
dict. -/
def summaryStats (maxItems : Nat) (result : List (String × JVal)) :
    Except String (List (String × JVal)) :=
  summaryStatsAux maxItems [] result

/-- The keys a result entry writes into the stats dict (none when the entry
raises). -/
def genKeys (maxItems : Nat) (kv : String × JVal) : List String :=
  match entryStats maxItems kv.1 kv.2 with
  | Except.ok ps => ps.map (fun p => p.1)
  | Except.error _ => []

def jsonEscapeChar (c : Char) : String :=
  if c = '"' then "\\\"" else if c = '\\' then "\\\\" else String.singleton c

/-- Minimal JSON string quoting (control-character escapes are omitted; no
stated theorem depends on the exact rendering). -/
def jsonQuote (s : String) : String :=
  "\"" ++ String.join (s.data.map jsonEscapeChar) ++ "\""

/-- Fuel-indexed JSON rendering mirroring `json.dumps` with its default
separators.  The fuel always exceeds the nesting depth at the call site, so
the fuel-exhausted branch is unreachable. -/
def serializeJFuel : Nat → JVal → String
  | 0, _ => ""
  | _ + 1, JVal.null => "null"
  | _ + 1, JVal.bool b => if b then "true" else "false"
  | _ + 1, JVal.num n => toString n
  | _ + 1, JVal.str s => jsonQuote s
  | fuel + 1, JVal.list xs =>
      "[" ++ String.intercalate ", " (xs.map (serializeJFuel fuel)) ++ "]"
  | fuel + 1, JVal.obj fields =>
      "\x7b" ++ String.intercalate ", "
        (fields.map (fun p => jsonQuote p.1 ++ ": " ++ serializeJFuel fuel p.2))
        ++ "\x7d"

mutual

/-- Node count of a JSON value; exceeds its nesting depth, so it is a valid
fuel for `serializeJFuel`. -/
def jcount : JVal → Nat
  | JVal.null => 1
  | JVal.bool _ => 1
  | JVal.num _ => 1
  | JVal.str _ => 1
  | JVal.list xs => 1 + jcountList xs
  | JVal.obj fs => 1 + jcountFields fs

def jcountList : List JVal → Nat
  | [] => 0
  | x :: xs => jcount x + jcountList xs

def jcountFields : List (String × JVal) → Nat
  | [] => 0
  | p :: fs => jcount p.2 + jcountFields fs

end

def serializeJ (v : JVal) : String := serializeJFuel (jcount v) v

/-- `_auto_summarize` (base.py lines 181-228): build the stats dict,
serialize, and cap the text at max_chars, appending an ellipsis when it was
cut; a raised AttributeError propagates out of the call. -/
def auto_summarize (result : List (String × JVal)) (maxChars maxItems : Nat) :
    Except String String :=
  match summaryStats maxItems result with
  | Except.error e => Except.error e
  | Except.ok stats =>
      let text := serializeJ (JVal.obj stats)
      Except.ok (if text.length > maxChars then strTake maxChars text ++ "..." else text)

/-- `Tool.summary_for_llm` (base.py lines 89-93): cap at `4 * token_limit`
characters and sample at most `max(5, token_limit // 50)` items. -/
def summary_for_llm (result : List (String × JVal)) (token_limit : Nat) :
    Except String String :=
  auto_summarize result (token_limit * 4) (max 5 (token_limit / 50))

/- ── Index store rows (src/hive/db/models.py), reduced to the fields the
claimed code paths read.  The JSON `meta` column is modelled by its "tags"
entry, the only part of the payload those paths touch; timestamps are
abstract naturals; row ids of features and primers are never read, so they
are omitted.  `end` is a Lean keyword, hence the field name `end_`. -/

structure IndexedFile where
  id : Nat
  file_path : String
  file_hash : String
  format : String
  status : String
  error_msg : Option String
  file_size : Nat
  file_mtime : Nat
deriving DecidableEq

structure Sequence where
  id : Nat
  file_id : Nat
  name : String
  size_bp : Nat
  topology : String
  sequence : String
  description : Option String
  meta_tags : Option (List String)
deriving DecidableEq

structure Feature where
  seq_id : Nat
  name : String
  type : String
  start : Nat
  end_ : Nat
  strand : Int
  qualifiers : Option String
deriving DecidableEq

structure Primer where
  seq_id : Nat
  name : String
  sequence : String
  tm : Option Int
  start : Option Nat
  end_ : Option Nat
  strand : Option Int
deriving DecidableEq

/-- The index-store state: the four tables plus the id sequence the database
draws fresh primary keys from. -/
structure DbState where
  files : List IndexedFile
  seqs : List Sequence
  feats : List Feature
  primers : List Primer
  nextId : Nat
deriving DecidableEq

/- ── Ingestion pipeline (src/hive/watcher/ingest.py, ingest_file,
lines 44-156).  File-system reads (hash_file, stat) enter the model as the
fileHash/fileSize/fileMtime arguments; the parser resolution plus parser run
of the try-block (lines 67-69) enters as `parse`, whose `Except.error`
carries the exception message. -/

/-- The parser output record (src/hive/parsers/base.py ParseResult). -/
structure ParsedFeature where
  name : String
  type : String
  start : Nat
  end_ : Nat
  strand : Int
  qualifiers : Option String
deriving DecidableEq

structure ParsedPrimer where
  name : String
  sequence : String
  tm : Option Int
  start : Option Nat
  end_ : Option Nat
  strand : Option Int
deriving DecidableEq

structure ParseResult where
  name : String
  sequence : String
  size_bp : Nat
  topology : String
  description : Option String
  features : List ParsedFeature
  primers : List ParsedPrimer
  meta_tags : Option (List String)
deriving DecidableEq

/-- Lookup of the existing row by path (ingest.py lines 57-60); file_path is
UNIQUE, so find? models the scalar result. -/
def findFile (db : DbState) (path : String) : Option IndexedFile :=
  db.files.find? (fun f => f.file_path == path)

/-- The condition of the "unchanged" no-op branch (ingest.py line 62). -/
def hashUnchanged (db : DbState) (path fileHash : String) : Bool :=
  match findFile db path with
  | some f => f.file_hash == fileHash
  | none => false

/-- Characters of `cs` after the last occurrence of `sep` (all of them when
`sep` is absent). -/
def afterLastChar (sep : Char) (cs : List Char) : List Char :=
  (cs.reverse.takeWhile (fun c => c != sep)).reverse

/-- `Path(path).suffix.lstrip(".")` (ingest.py lines 79, 96): the extension
of the final path component; empty for dotless, dot-leading, or dot-trailing
names. -/
def fileExt (path : String) : String :=
  let name := afterLastChar '/' path.data
  let revName := name.reverse
  let extRev := revName.takeWhile (fun c => c != '.')
  let remainder := revName.drop extRev.length
  match remainder with
  | [] => ""
  | _ :: beforeRev =>
      if beforeRev.isEmpty then ""
      else if extRev.isEmpty then ""
      else String.mk extRev.reverse

/-- The cascade delete of a file's sequences (ingest.py lines 92-94):
features and primers of the deleted sequences go with them. -/
def deleteSeqsOfFile (db : DbState) (fid : Nat) : DbState :=
  let deadIds := (db.seqs.filter (fun s => s.file_id == fid)).map (fun s => s.id)
  { db with
    seqs := db.seqs.filter (fun s => !(s.file_id == fid)),
    feats := db.feats.filter (fun ft => !(deadIds.contains ft.seq_id)),
    primers := db.primers.filter (fun pr => !(deadIds.contains pr.seq_id)) }

/-- Insert one Sequence, flush to get its id, then its Features and Primers
(ingest.py lines 114-149). -/
def insertParsed (db : DbState) (fid : Nat) (r : ParseResult) : DbState :=
  let sid := db.nextId
  let seq : Sequence :=
    { id := sid, file_id := fid, name := r.name, size_bp := r.size_bp,
      topology := r.topology, sequence := r.sequence,
      description := r.description, meta_tags := r.meta_tags }
  let feats := r.features.map (fun f =>
    ({ seq_id := sid, name := f.name, type := f.type, start := f.start,
       end_ := f.end_, strand := f.strand, qualifiers := f.qualifiers } : Feature))
  let prs := r.primers.map (fun p =>
    ({ seq_id := sid, name := p.name, sequence := p.sequence, tm := p.tm,
       start := p.start, end_ := p.end_, strand := p.strand } : Primer))
  { db with
    seqs := db.seqs ++ [seq],
    feats := db.feats ++ feats,
    primers := db.primers ++ prs,
    nextId := sid + 1 }

/-- `ingest_file` (ingest.py lines 44-156).  Returns the new state and the
id of the upserted file row (`none` both for the unchanged no-op and for the
parse-error path, matching the function's `return None`). -/
def ingest_file (db : DbState) (path fileHash : String)
    (fileSize fileMtime : Nat) (parse : Except String ParseResult) :
    DbState × Option Nat :=
  match findFile db path with
  | some existing =>
      if existing.file_hash == fileHash then
        (db, none)
      else
        match parse with
        | Except.error e =>
            ({ db with
               files := db.files.map (fun f =>
                 if f.id == existing.id
                 then { f with status := "error", error_msg := some e }
                 else f) },
             none)
        | Except.ok r =>
            let db1 := deleteSeqsOfFile db existing.id
            let db2 := { db1 with
              files := db1.files.map (fun f =>
                if f.id == existing.id then
                  { f with
                    file_hash := fileHash,
                    format := fileExt path,
                    status := "active",
                    error_msg := none,
                    file_size := fileSize,
                    file_mtime := fileMtime }
                else f) }
            (insertParsed db2 existing.id r, some existing.id)
  | none =>
      match parse with
      | Except.error e =>
          ({ db with
             files := db.files ++
               [{ id := db.nextId, file_path := path, file_hash := fileHash,
                  format := fileExt path, status := "error",
                  error_msg := some e, file_size := fileSize,
                  file_mtime := fileMtime }],
             nextId := db.nextId + 1 },
           none)
      | Except.ok r =>
          let fid := db.nextId
          let db1 := { db with
            files := db.files ++
              [{ id := fid, file_path := path, file_hash := fileHash,
                 format := fileExt path, status := "active", error_msg := none,
                 file_size := fileSize, file_mtime := fileMtime }],
            nextId := fid + 1 }
          (insertParsed db1 fid r, some fid)

/- ── Sequence resolver (src/hive/tools/resolve.py, resolve_sequence,
lines 12-45). -/

/-- ASCII lowering, modelling `str.lower()` / SQL `lower()` on the ASCII
names the claims quantify over. -/
def lowerChar (c : Char) : Char :=
  if 'A' ≤ c ∧ c ≤ 'Z' then Char.ofNat (c.toNat + 32) else c

def lowerStr (s : String) : String := String.mk (s.data.map lowerChar)

/-- Whether a sequence's file row is `active` (the join + status filter of
resolve.py lines 25-29; ids are unique, find? models the FK dereference). -/
def isActiveFile (db : DbState) (fid : Nat) : Bool :=
  match db.files.find? (fun f => f.id == fid) with
  | some f => f.status == "active"
  | none => false

/-- `ORDER BY sequences.id LIMIT 1` (resolve.py line 45). -/
def minById : List Sequence → Option Sequence
  | [] => none
  | s :: ss =>
      match minById ss with
      | none => some s
      | some t => if s.id ≤ t.id then some s else some t

/-- `resolve_sequence` (resolve.py lines 12-45): SID first, else non-empty
case-insensitive exact name, restricted to sequences of active files.  The
eager-load options only affect ORM loading strategy and are omitted. -/
def resolve_sequence (db : DbState) (sid : Option Nat) (name : Option String) :
    Option Sequence :=
  let base := db.seqs.filter (fun s => isActiveFile db s.file_id)
  match sid with
  | some i => minById (base.filter (fun s => s.id == i))
  | none =>
      match name with
      | some n =>
          if n.isEmpty then none
          else minById (base.filter (fun s => lowerStr s.name == lowerStr n))
      | none => none

/- ── Fuzzy search (src/hive/tools/search.py, _parse_bool_query lines 21-32
and SearchTool.execute lines 89-213).  Trigram similarity is the pg_trgm
`similarity` function; the model abstracts it as a parameter
`sim : String → String → ℚ`, so every theorem below holds for any similarity
scoring.  `ORDER BY score DESC` only permutes rows and the 3-decimal display
rounding of the score is omitted; the claims concern membership and the
combined score. -/

inductive BoolOp where
  | and : BoolOp
  | or : BoolOp
  | single : BoolOp
deriving DecidableEq

/-- Whether `sub` occurs as a substring (Python `sub in s`). -/
def listContainsSub (sub : List Char) : List Char → Bool
  | [] => listIsPfx sub []
  | c :: rest => listIsPfx sub (c :: rest) || listContainsSub sub rest

def containsSub (sub s : String) : Bool := listContainsSub sub.data s.data

def isSpaceChar (c : Char) : Bool :=
  c == ' ' || c == '\t' || c == '\n' || c == '\r'

/-- Python `str.strip()` (over the ASCII whitespace the claims use). -/
def pyStrip (s : String) : String :=
  String.mk (((s.data.dropWhile isSpaceChar).reverse.dropWhile isSpaceChar).reverse)

def splitSubAux (sep : List Char) : Nat → List Char → List Char → List (List Char)
  | _, acc, [] => [acc.reverse]
  | 0, acc, cs => [acc.reverse ++ cs]
  | fuel + 1, acc, c :: cs =>
      if listIsPfx sep (c :: cs) then
        acc.reverse :: splitSubAux sep fuel [] ((c :: cs).drop sep.length)
      else
        splitSubAux sep fuel (c :: acc) cs

/-- Split on a separator substring.  Combined with the per-piece strip below
this models `re.split(r"\s*&&\s*", query)` followed by `.strip()`; the two
agree on every query whose terms do not themselves contain the operator. -/
def splitOnSub (sep s : String) : List String :=
  (splitSubAux sep.data s.data.length [] s.data).map String.mk

/-- `_parse_bool_query` (search.py lines 21-32). -/
def _parse_bool_query (query : String) : List String × BoolOp :=
  if containsSub "&&" query then
    let terms := ((splitOnSub "&&" query).map pyStrip).filter (fun t => !t.isEmpty)
    if 1 < terms.length then (terms, BoolOp.and) else (terms, BoolOp.single)
  else if containsSub "||" query then
    let terms := ((splitOnSub "||" query).map pyStrip).filter (fun t => !t.isEmpty)
    if 1 < terms.length then (terms, BoolOp.or) else (terms, BoolOp.single)
  else ([pyStrip query], BoolOp.single)

/-- `coalesce(similarity(column, term), 0)` for a nullable column
(search.py lines 109-112). -/
def simOpt (sim : String → String → ℚ) (o : Option String) (term : String) : ℚ :=
  match o with
  | some s => sim s term
  | none => 0

/-- The text rendering of the JSON tags array that
`cast(Sequence.meta["tags"], Text)` feeds to similarity (search.py
lines 110-112). -/
def tagsText (s : Sequence) : Option String :=
  s.meta_tags.map (fun xs => serializeJ (JVal.list (xs.map JVal.str)))

/-- The per-term feature subquery (search.py lines 114-122):
`coalesce(max(similarity(Feature.name, term)) grouped by seq_id, 0)`. -/
def featScore (sim : String → String → ℚ) (db : DbState) (sid : Nat)
    (term : String) : ℚ :=
  match (db.feats.filter (fun f => f.seq_id == sid)).map (fun f => sim f.name term) with
  | [] => 0
  | x :: xs => xs.foldl max x

/-- `greatest(seq_sim, desc_sim, feat_score, tags_sim)` (search.py line 127). -/
def termScore (sim : String → String → ℚ) (db : DbState) (s : Sequence)
    (term : String) : ℚ :=
  max (max (sim s.name term) (simOpt sim s.description term))
      (max (featScore sim db s.id term) (simOpt sim (tagsText s) term))

/-- The per-term inclusion condition (search.py lines 124-131): some scored
field above 0.1, or exact (lowercased) topology match. -/
def termCond (sim : String → String → ℚ) (db : DbState) (s : Sequence)
    (term : String) : Bool :=
  decide (mkRat 1 10 < sim s.name term) ||
  decide (mkRat 1 10 < simOpt sim s.description term) ||
  decide (mkRat 1 10 < featScore sim db s.id term) ||
  decide (mkRat 1 10 < simOpt sim (tagsText s) term) ||
  (lowerStr s.topology == lowerStr term)

/-- Boolean composition of the per-term conditions (search.py lines 157-163). -/
def rowMatches (sim : String → String → ℚ) (db : DbState) (terms : List String)
    (op : BoolOp) (s : Sequence) : Bool :=
  match op with
  | BoolOp.and => terms.all (fun t => termCond sim db s t)
  | BoolOp.or => terms.any (fun t => termCond sim db s t)
  | BoolOp.single =>
      match terms with
      | t :: _ => termCond sim db s t
      | [] => false

def listMin : List ℚ → ℚ
  | [] => 0
  | x :: xs => xs.foldl min x

def listMax : List ℚ → ℚ
  | [] => 0
  | x :: xs => xs.foldl max x

/-- Combined score (search.py lines 137-143): the single term's score, else
`least` of the per-term scores for AND and `greatest` for OR. -/
def combineScores (op : BoolOp) (scores : List ℚ) : ℚ :=
  match scores with
  | [x] => x
  | _ =>
      match op with
      | BoolOp.and => listMin scores
      | _ => listMax scores

/-- The optional filters dict (search.py lines 173-188); Python falsy values
(absent, empty string, zero) disable a filter. -/
structure SearchFilters where
  topology : Option String := none
  size_min : Option Nat := none
  size_max : Option Nat := none
  feature_type : Option String := none
deriving DecidableEq

def filtersOk (db : DbState) (s : Sequence) (fl : SearchFilters) : Bool :=
  (match fl.topology with
   | none => true
   | some t => if t.isEmpty then true else s.topology == t) &&
  (match fl.size_min with
   | none => true
   | some n => if n == 0 then true else decide (n ≤ s.size_bp)) &&
  (match fl.size_max with
   | none => true
   | some n => if n == 0 then true else decide (s.size_bp ≤ n)) &&
  (match fl.feature_type with
   | none => true
   | some ft =>
       if ft.isEmpty then true
       else db.feats.any (fun f => f.seq_id == s.id && f.type == ft))

/-- The tags-context filter (search.py lines 167-171); similarity against a
NULL meta column is NULL, which the strict `> 0.1` comparison rejects. -/
def tagsFilterOk (sim : String → String → ℚ) (s : Sequence)
    (tags : Option String) : Bool :=
  match tags with
  | none => true
  | some t =>
      if t.isEmpty then true
      else decide (mkRat 1 10 < simOpt sim (tagsText s) t)

/-- The per-term floor of the claim: some scored field (name, description,
best feature name, meta tags) has similarity ≥ 0.1 to the term, or the term
equals the record's topology (compared lowercased, as the code lowers both
sides). -/
def scoredFieldFloor (sim : String → String → ℚ) (db : DbState) (s : Sequence)
    (term : String) : Prop :=
  (mkRat 1 10 ≤ sim s.name term ∨ mkRat 1 10 ≤ simOpt sim s.description term ∨
   mkRat 1 10 ≤ featScore sim db s.id term ∨
   mkRat 1 10 ≤ simOpt sim (tagsText s) term) ∨
  lowerStr term = lowerStr s.topology

structure SearchResultItem where
  sid : Nat
  name : String
  size_bp : Nat
  topology : String
  features : List String
  tags : List String
  file_path : String
  score : ℚ
deriving DecidableEq

/-- The joined file's path (a sequence row always has its file row). -/
def filePathOf (db : DbState) (fid : Nat) : String :=
  match db.files.find? (fun f => f.id == fid) with
  | some f => f.file_path
  | none => ""

/-- `SearchTool.execute` (search.py lines 89-213): parse the boolean query,
keep the active-file sequences passing the boolean condition and the
filters, and attach the combined score to each returned record. -/
def searchExec (sim : String → String → ℚ) (db : DbState) (query : String)
    (tags : Option String) (filters : SearchFilters) : List SearchResultItem :=
  let parsed := _parse_bool_query query
  let rows := db.seqs.filter (fun s =>
    isActiveFile db s.file_id && rowMatches sim db parsed.1 parsed.2 s &&
    tagsFilterOk sim s tags && filtersOk db s filters)
  rows.map (fun s =>
    { sid := s.id, name := s.name, size_bp := s.size_bp, topology := s.topology,
      features := (db.feats.filter (fun f => f.seq_id == s.id)).map (fun f => f.name),
      tags := s.meta_tags.getD [],
      file_path := filePathOf db s.file_id,
      score := combineScores parsed.2 (parsed.1.map (termScore sim db s)) })

/- ── Extract tool (src/hive/tools/extract.py, _slice_sequence lines 176-184
and the feature/region branches of ExtractTool.execute lines 104-159).
Slice bounds are naturals: the tool's documented region convention is
1-based, so the Python negative-index wraparound for a region start of 0 is
outside the modelled range (the theorems hypothesise `1 ≤ a`). -/

/-- Python `s[a:b]` for natural bounds. -/
def strSlice (s : String) (a b : Nat) : String :=
  String.mk ((s.data.drop a).take (b - a))

/-- `_slice_sequence` (extract.py lines 176-184): 0-based end-exclusive
slice; on circular topology a start beyond the end wraps around; on linear
topology the inverted slice is empty, as in Python. -/
def _slice_sequence (seq : String) (start stop : Nat) (topology : String) :
    String :=
  if start ≤ stop then strSlice seq start stop
  else if topology == "circular" then
    String.mk (seq.data.drop start) ++ String.mk (seq.data.take stop)
  else strSlice seq start stop

/-- IUPAC complement table of Bio.Seq (case-preserving; characters outside
the alphabet are left unchanged). -/
def complementChar (c : Char) : Char :=
  match c with
  | 'A' => 'T'
  | 'T' => 'A'
  | 'G' => 'C'
  | 'C' => 'G'
  | 'U' => 'A'
  | 'M' => 'K'
  | 'K' => 'M'
  | 'R' => 'Y'
  | 'Y' => 'R'
  | 'V' => 'B'
  | 'B' => 'V'
  | 'H' => 'D'
  | 'D' => 'H'
  | 'a' => 't'
  | 't' => 'a'
  | 'g' => 'c'
  | 'c' => 'g'
  | 'u' => 'a'
  | 'm' => 'k'
  | 'k' => 'm'
  | 'r' => 'y'
  | 'y' => 'r'
  | 'v' => 'b'
  | 'b' => 'v'
  | 'h' => 'd'
  | 'd' => 'h'
  | other => other

/-- `Seq(s).reverse_complement()` (extract.py line 125). -/
def reverse_complement (s : String) : String :=
  String.mk ((s.data.map complementChar).reverse)

/-- The feature branch of ExtractTool.execute (extract.py lines 123-125):
slice `[start, end)` of the parent sequence, then reverse-complement when
the matched feature lies on strand −1. -/
def featureSubseq (parent topology : String) (fstart fend : Nat)
    (strand : Int) : String :=
  let subseq := _slice_sequence parent fstart fend topology
  if strand == -1 then reverse_complement subseq else subseq

/-- The region branch (extract.py lines 149-150): the 1-based inclusive
region `a:b` becomes the 0-based end-exclusive slice `[a-1, b)`. -/
def regionSubseq (parent topology : String) (a b : Nat) : String :=
  _slice_sequence parent (a - 1) b topology

/- ── Agentic router loop (src/hive/tools/router.py, _unified_loop,
lines 138-358).  The claim concerns the trace of LLM chat calls and tool
executions, so the model tracks the control state the loop threads between
turns (offered schemas, force_text, last executed tool) and emits that
trace; the data plane (message stack, auto-pipe cache, params, summaries,
token accounting and the returned response value) does not influence which
calls are made and is elided.  A tool schema is represented by its function
name.  An LLM reply is the loop-relevant shape of one chat response:
`failure` is a raised/timeout call (the except branch), `refusal` a
finish_reason of "refusal", and `msg calls` a message carrying tool_calls
(empty for a plain text reply). -/

structure ToolCall where
  name : String
deriving DecidableEq

inductive Reply where
  | failure : Reply
  | refusal : Reply
  | msg (calls : List ToolCall) : Reply
deriving DecidableEq

/-- The `_NEXT_TOOLS` narrowing table (router.py lines 24-37); `none` for a
tool that has no entry. -/
def _NEXT_TOOLS (t : String) : Option (List String) :=
  if t == "search" then some ["extract", "profile", "features", "primers", "blast"]
  else if t == "profile" then some ["extract", "features", "primers", "blast"]
  else if t == "features" then some ["extract", "blast"]
  else if t == "primers" then some ["extract", "blast"]
  else if t == "extract" then
    some ["blast", "translate", "transcribe", "revcomp", "digest", "gc"]
  else if t == "blast" then some []
  else if t == "translate" then some []
  else if t == "transcribe" then some []
  else if t == "digest" then some []
  else if t == "gc" then some []
  else if t == "revcomp" then some []
  else none

/-- The terminal tools of the claim (the table rows mapping to ∅). -/
def isTerminalTool (t : String) : Bool :=
  t == "blast" || t == "translate" || t == "transcribe" ||
  t == "digest" || t == "gc" || t == "revcomp"

/-- The `_NOOP_TOOL` dummy schema (router.py lines 17-20), by its name. -/
def noopSchema : List String := ["_noop"]

/-- Loop state threaded between turns (router.py lines 170-171, 320-334). -/
structure LoopState where
  schemas : List String
  forceText : Bool
  lastTool : Option String
deriving DecidableEq

/-- Trace events: one LLM chat call (with the schema set passed and whether
tool_choice="none" was forced) or one tool execution. -/
inductive Ev where
  | chat (tools : List String) (choiceNone : Bool) : Ev
  | exec (tool : String) : Ev
deriving DecidableEq

/-- The per-turn tool_calls loop (router.py lines 250-323): unknown tools
only append an error message; known tools execute and become last_tool. -/
def execCalls (registry : List String) :
    Option String → List ToolCall → List Ev × Option String
  | last, [] => ([], last)
  | last, c :: cs =>
      if registry.contains c.name then
        let rest := execCalls registry (some c.name) cs
        (Ev.exec c.name :: rest.1, rest.2)
      else
        execCalls registry last cs

/-- The narrowing step at the end of a turn (router.py lines 325-334). -/
def narrowState (registry : List String) (s : LoopState) : LoopState :=
  match s.lastTool with
  | none => s
  | some t =>
      match _NEXT_TOOLS t with
      | none => s
      | some allowed =>
          if allowed.isEmpty then { s with forceText := true }
          else
            let narrowed := registry.filter (fun n => allowed.contains n)
            if narrowed.isEmpty then { s with forceText := true }
            else { s with schemas := narrowed }

/-- One run of the `for turn in range(max_turns)` loop (router.py
lines 182-335), as the trace it produces.  Each iteration makes exactly one
chat call; a failure, a refusal, a text reply, or any reply under force_text
ends the loop (return or break); otherwise the turn's tool_calls execute in
order and the schema set narrows for the next turn.  An exhausted reply
list behaves like a failed call. -/
def loopSteps (registry : List String) :
    Nat → List Reply → LoopState → List Ev
  | 0, _, _ => []
  | fuel + 1, replies, s =>
      let callEv := Ev.chat (if s.forceText then noopSchema else s.schemas)
        s.forceText
      match replies with
      | [] => [callEv]
      | r :: rest =>
          match r with
          | Reply.failure => [callEv]
          | Reply.refusal => [callEv]
          | Reply.msg calls =>
              if calls.isEmpty || s.forceText then [callEv]
              else
                let ex := execCalls registry s.lastTool calls
                let s' := narrowState registry { s with lastTool := ex.2 }
                callEv :: (ex.1 ++ loopSteps registry fuel rest s')

/-- `_unified_loop` from its initial state (router.py lines 154-180):
all llm tools offered, force_text false, no last tool. -/
def _unified_loop_trace (registry : List String) (maxTurns : Nat)
    (replies : List Reply) : List Ev :=
  loopSteps registry maxTurns replies
    { schemas := registry, forceText := false, lastTool := none }

def chatCount : List Ev → Nat
  | [] => 0
  | Ev.chat _ _ :: rest => chatCount rest + 1
  | Ev.exec _ :: rest => chatCount rest

def lastIsTerminal : Option String → Bool
  | none => false
  | some t => isTerminalTool t

/-- The trace property of the claim: tracking the most recently executed
tool along the trace, every chat call made while that tool is terminal
passes the single dummy schema with tool_choice="none". -/
def terminalOk : Option String → List Ev → Prop
  | _, [] => True
  | last, Ev.chat tools choice :: rest =>
      (lastIsTerminal last = true → tools = noopSchema ∧ choice = true) ∧
      terminalOk last rest
  | _, Ev.exec t :: rest => terminalOk (some t) rest

/- ── Directory tags (spec §4.3 step 6, §3 Sequence.meta).  The snapshot's
src/hive/watcher/ingest.py predates the `watcher_root`/`commit` parameters
its callers pass (watcher.py lines 61 and 130) and the `extract_tags`
function its tests import (tests/test_ingest.py line 10); that part of the
pipeline is modelled from the spec. -/

/-- Path segments (components between slashes). -/
def splitPath (p : String) : List String :=
  ((splitSubAux ['/'] p.data.length [] p.data).map String.mk).filter
    (fun seg => !seg.isEmpty)

def segsArePfx : List String → List String → Bool
  | [], _ => true
  | _ :: _, [] => false
  | x :: xs, y :: ys => x == y && segsArePfx xs ys

/-- Modelled from the spec: `extract_tags` — "meta.tags is an ordered list
of directory-segment strings derived from the file path relative to the
watched root"; a path outside the root yields no tags (per
tests/test_ingest.py, extract_tags returns [] for a non-subpath and for a
file directly in the root). -/
def extract_tags (path root : String) : List String :=
  let ps := splitPath path
  let rs := splitPath root
  if segsArePfx rs ps then (ps.drop rs.length).dropLast else []

/-- Modelled from the spec: the tags attached to the inserted sequence's
meta — derived from the watcher root when one is supplied, absent
otherwise. -/
def ingest_meta_tags (path : String) (watcherRoot : Option String) :
    Option (List String) :=
  match watcherRoot with
  | some root => some (extract_tags path root)
  | none => none

/-- Modelled from the spec: the watcher-root-aware ingest (spec §4.3 steps
6-7) — identical to `ingest_file` except that the inserted sequence carries
the derived directory tags. -/
def ingest_file_spec (db : DbState) (path fileHash : String)
    (fileSize fileMtime : Nat) (parse : Except String ParseResult)
    (watcherRoot : Option String) : DbState × Option Nat :=
  ingest_file db path fileHash fileSize fileMtime
    (parse.map (fun r => { r with meta_tags := ingest_meta_tags path watcherRoot }))

theorem blastParamArgs_of_skipped (p : String × PyParamVal)
    (h : blastParamSkipped p = true) : blastParamArgs p = [] := by
  rcases p with ⟨key, v⟩
  cases v with
  | pynone => rfl
  | pybool b =>
    have hc : blockedBlastKeys.contains key = true := by
      simpa [blastParamSkipped] using h
    have hm : key ∈ blockedBlastKeys := by simpa using hc
    simp [blastParamArgs, hm]
  | pyother s =>
    have hc : blockedBlastKeys.contains key = true := by
      simpa [blastParamSkipped] using h
    have hm : key ∈ blockedBlastKeys := by simpa using hc
    simp [blastParamArgs, hm]

theorem flatten_map_effective (params : List (String × PyParamVal)) :
    (params.map blastParamArgs).flatten
      = ((effectiveBlastParams params).map blastParamArgs).flatten := by
  induction params with
  | nil => rfl
  | cons p ps ih =>
    cases hs : blastParamSkipped p with
    | true =>
      have hargs := blastParamArgs_of_skipped p hs
      simp [effectiveBlastParams, List.filter_cons, hs, hargs] at ih ⊢
      exact ih
    | false =>
      simp [effectiveBlastParams, List.filter_cons, hs] at ih ⊢
      exact ih

/-- C8: `run_search` never passes a forbidden flag to the BLAST subprocess:
every blocked key and every key whose value is `None` contributes nothing to
the constructed command line, and two params mappings that differ only in
such keys yield the identical command. -/
theorem C8_blast_forbidden_flags (binary queryFile dbFile : String)
    (p q : List (String × PyParamVal))
    (h : effectiveBlastParams p = effectiveBlastParams q) :
    (∀ r ∈ p, blastParamSkipped r = true → blastParamArgs r = []) ∧
    run_search_cmd binary queryFile dbFile p
      = run_search_cmd binary queryFile dbFile q := by
  constructor
  · intro r _ hskip
    exact blastParamArgs_of_skipped r hskip
  · unfold run_search_cmd
    rw [flatten_map_effective p, flatten_map_effective q, h]

/-- Witness for C8 at concrete inputs: `out` is blocked and a `None`-valued
`foo` is skipped, so adding both to a params list leaves the command equal to
the one built without them. -/
theorem C8_blast_forbidden_flags_witness :
    run_search_cmd "blastn" "q.fasta" "hive_nucl"
        [("evalue", PyParamVal.pyother "10"),
         ("out", PyParamVal.pyother "leak.txt"),
         ("foo", PyParamVal.pynone)]
      = run_search_cmd "blastn" "q.fasta" "hive_nucl"
        [("evalue", PyParamVal.pyother "10")] :=
  (C8_blast_forbidden_flags "blastn" "q.fasta" "hive_nucl" _ _ (by rfl)).2

/-- C2: every concrete Tool subclass's `execute`, as wrapped at
class-definition time by `Tool.__init_subclass__`, returns normally on every
params/kwargs input: either the body's own result, or — when the body raises
any exception — the dict with message "Tool '<name>' failed. Check server
logs.", so the router loop never observes a raised exception from a tool. -/
theorem C2_tool_execute_contained (name : String) (accepted : List String)
    (original : List (String × JVal) → List (String × JVal) →
      Except String (List (String × JVal)))
    (params : List (String × JVal)) (kw : List (String × JVal)) :
    (∃ r, original params (filterKwargs accepted kw) = Except.ok r ∧
        safeExecute name accepted original params kw = r) ∨
    (∃ e, original params (filterKwargs accepted kw) = Except.error e ∧
        safeExecute name accepted original params kw = errorDict name) := by
  unfold safeExecute
  cases h : original params (filterKwargs accepted kw) with
  | ok r => exact Or.inl ⟨r, rfl, rfl⟩
  | error e => exact Or.inr ⟨e, rfl, rfl⟩

theorem syncStep_frame (db : ApprovalDb) (f : FileEntry) (n : String)
    (h : n ≠ f.filename) : (syncStep db f).1 n = db n := by
  unfold syncStep
  cases hdb : db f.filename with
  | none => simp [h]
  | some r =>
    by_cases hs : r.status = "approved"
    · by_cases hh : r.file_hash = f.file_hash
      · simp [hs, hh]
      · simp [hs, hh, h]
    · simp [hs]

theorem syncStep_self_row (db : ApprovalDb) (f : FileEntry) :
    (syncStep db f).1 f.filename = syncOutcomeRow (db f.filename) f := by
  unfold syncStep syncOutcomeRow
  cases hdb : db f.filename with
  | none => simp
  | some r =>
    by_cases hs : r.status = "approved"
    · by_cases hh : r.file_hash = f.file_hash
      · simp [hs, hh, hdb]
      · simp [hs, hh]
    · simp [hs, hdb]

theorem syncStep_flag (db : ApprovalDb) (f : FileEntry) :
    (syncStep db f).2 = syncOutcomeApproved (db f.filename) f := by
  unfold syncStep syncOutcomeApproved
  cases hdb : db f.filename with
  | none => simp
  | some r =>
    by_cases hs : r.status = "approved"
    · by_cases hh : r.file_hash = f.file_hash
      · simp [hs, hh]
      · simp [hs, hh]
    · simp [hs]

theorem syncFiles_frame (db : ApprovalDb) (L : List FileEntry) (n : String)
    (h : n ∉ L.map FileEntry.filename) :
    (syncFiles db L).1 n = db n ∧ n ∉ (syncFiles db L).2 := by
  induction L generalizing db with
  | nil => exact ⟨rfl, by simp [syncFiles]⟩
  | cons g gs ih =>
    simp only [List.map_cons, List.mem_cons] at h
    push_neg at h
    obtain ⟨hg, hgs⟩ := h
    have hstep := syncStep_frame db g n hg
    have hrest := ih (syncStep db g).1 hgs
    refine ⟨by simpa [syncFiles, hstep] using hrest.1, ?_⟩
    simp only [syncFiles]
    by_cases hflag : (syncStep db g).2
    · simp only [hflag, if_true]
      intro hmem
      rcases List.mem_cons.mp hmem with hix | hix
      · exact hg hix
      · exact hrest.2 hix
    · simp only [hflag]
      simpa using hrest.2

theorem syncFiles_spec (db : ApprovalDb) (L : List FileEntry) (f : FileEntry)
    (hf : f ∈ L) (hnd : (L.map FileEntry.filename).Nodup) :
    (syncFiles db L).1 f.filename = syncOutcomeRow (db f.filename) f ∧
    (f.filename ∈ (syncFiles db L).2 ↔
      syncOutcomeApproved (db f.filename) f = true) := by
  induction L generalizing db with
  | nil => cases hf
  | cons g gs ih =>
    have hnd' := hnd
    simp only [List.map_cons, List.nodup_cons] at hnd'
    obtain ⟨hgnot, hndgs⟩ := hnd'
    rcases List.mem_cons.mp hf with hfg | hfgs
    · subst hfg
      have hframe := syncFiles_frame (syncStep db f).1 gs f.filename hgnot
      constructor
      · show (syncFiles (syncStep db f).1 gs).1 f.filename = _
        rw [hframe.1, syncStep_self_row]
      · show f.filename ∈ (if (syncStep db f).2
            then f.filename :: (syncFiles (syncStep db f).1 gs).2
            else (syncFiles (syncStep db f).1 gs).2) ↔ _
        rw [← syncStep_flag db f]
        by_cases hflag : (syncStep db f).2 = true
        · simp [hflag]
        · have hfl : (syncStep db f).2 = false := by simpa using hflag
          simp only [hfl, Bool.false_eq_true, if_false, iff_false]
          exact hframe.2
    · have hgf : g.filename ≠ f.filename := by
        intro he
        exact hgnot (he ▸ List.mem_map_of_mem FileEntry.filename hfgs)
      have hstep := syncStep_frame db g f.filename (Ne.symm hgf)
      have hrest := ih (syncStep db g).1 hfgs hndgs
      constructor
      · show (syncFiles (syncStep db g).1 gs).1 f.filename = _
        rw [hrest.1, hstep]
      · show f.filename ∈ (if (syncStep db g).2
            then g.filename :: (syncFiles (syncStep db g).1 gs).2
            else (syncFiles (syncStep db g).1 gs).2) ↔ _
        rw [← hstep]
        by_cases hflag : (syncStep db g).2 = true
        · simp only [hflag, if_true, List.mem_cons]
          constructor
          · intro hmem
            rcases hmem with hix | hix
            · exact absurd hix.symm hgf
            · exact hrest.2.mp hix
          · intro hout
            exact Or.inr (hrest.2.mpr hout)
        · have hfl : (syncStep db g).2 = false := by simpa using hflag
          simp only [hfl, Bool.false_eq_true, if_false]
          exact hrest.2

theorem insertByName_perm (f : FileEntry) (l : List FileEntry) :
    (insertByName f l).Perm (f :: l) := by
  induction l with
  | nil => exact List.Perm.refl _
  | cons g gs ih =>
    unfold insertByName
    by_cases h : f.filename ≤ g.filename
    · simp only [h, if_true]
      exact List.Perm.refl _
    · simp only [h, if_false]
      exact (ih.cons g).trans (List.Perm.swap f g gs)

theorem sortByName_perm (l : List FileEntry) : (sortByName l).Perm l := by
  induction l with
  | nil => exact List.Perm.refl _
  | cons f fs ih =>
    exact (insertByName_perm f (sortByName fs)).trans (ih.cons f)

/-- C3: sync_quarantine, applied to every `.py` file in the tools directory
whose name does not start with an underscore, makes exactly these transitions
per file: no ToolApproval row → a new row with status quarantined and the
file's hash is created; approved row with matching hash → the filename is in
the returned approved set; approved row with a different hash → the row is
updated to quarantined with the new hash and reviewed_at null, and the file
is not approved; any other status → the row is unchanged and the file is not
approved. -/
theorem C3_sync_quarantine_transitions (db : ApprovalDb)
    (dir : List FileEntry) (f : FileEntry)
    (hmem : f ∈ dir) (hpy : isExternalToolFile f.filename = true)
    (hnodup : ((dir.filter (fun g => isExternalToolFile g.filename)).map
        FileEntry.filename).Nodup) :
    (db f.filename = none →
        (sync_quarantine db dir).1 f.filename = some (quarantineRow f) ∧
        f.filename ∉ (sync_quarantine db dir).2) ∧
    (∀ r, db f.filename = some r → r.status = "approved" →
        r.file_hash = f.file_hash →
        (sync_quarantine db dir).1 f.filename = some r ∧
        f.filename ∈ (sync_quarantine db dir).2) ∧
    (∀ r, db f.filename = some r → r.status = "approved" →
        r.file_hash ≠ f.file_hash →
        (sync_quarantine db dir).1 f.filename = some (requarantinedRow r f) ∧
        f.filename ∉ (sync_quarantine db dir).2) ∧
    (∀ r, db f.filename = some r → r.status ≠ "approved" →
        (sync_quarantine db dir).1 f.filename = some r ∧
        f.filename ∉ (sync_quarantine db dir).2) := by
  have hfl : f ∈ dir.filter (fun g => isExternalToolFile g.filename) :=
    List.mem_filter.mpr ⟨hmem, hpy⟩
  have hperm :=
    sortByName_perm (dir.filter (fun g => isExternalToolFile g.filename))
  have hfL : f ∈ sortByName (dir.filter (fun g => isExternalToolFile g.filename)) :=
    hperm.mem_iff.mpr hfl
  have hndL : ((sortByName (dir.filter (fun g => isExternalToolFile g.filename))).map
      FileEntry.filename).Nodup :=
    ((hperm.map FileEntry.filename).nodup_iff).mpr hnodup
  have hspec := syncFiles_spec db _ f hfL hndL
  have hq : sync_quarantine db dir
      = syncFiles db (sortByName (dir.filter (fun g => isExternalToolFile g.filename))) := rfl
  refine ⟨?_, ?_, ?_, ?_⟩
  · intro hdb
    rw [hq]
    refine ⟨by rw [hspec.1, hdb]; rfl, ?_⟩
    intro hin
    have hval := hspec.2.mp hin
    rw [hdb] at hval
    simp [syncOutcomeApproved] at hval
  · intro r hdb hst hh
    rw [hq]
    refine ⟨?_, ?_⟩
    · rw [hspec.1, hdb]
      simp [syncOutcomeRow, hst, hh]
    · apply hspec.2.mpr
      rw [hdb]
      simp [syncOutcomeApproved, hst, hh]
  · intro r hdb hst hh
    rw [hq]
    refine ⟨?_, ?_⟩
    · rw [hspec.1, hdb]
      simp [syncOutcomeRow, hst, hh]
    · intro hin
      have hval := hspec.2.mp hin
      rw [hdb] at hval
      simp [syncOutcomeApproved, hst, hh] at hval
  · intro r hdb hst
    rw [hq]
    refine ⟨?_, ?_⟩
    · rw [hspec.1, hdb]
      simp [syncOutcomeRow, hst]
    · intro hin
      have hval := hspec.2.mp hin
      rw [hdb] at hval
      simp [syncOutcomeApproved, hst] at hval

/-- Witness for C3 at concrete inputs, mirroring seed scenario 5 of the spec:
`foo.py` approved at hash H1, modified to hash H2, is re-quarantined with the
new hash and reviewed_at null, and is not in the approved set. -/
theorem C3_sync_quarantine_transitions_witness :
    (sync_quarantine
        (fun n => if n = "foo.py"
          then some ⟨"foo.py", "H1", some "foo", "approved", some 5⟩
          else none)
        [⟨"foo.py", "H2", some "foo"⟩]).1 "foo.py"
      = some ⟨"foo.py", "H2", some "foo", "quarantined", none⟩ ∧
    "foo.py" ∉ (sync_quarantine
        (fun n => if n = "foo.py"
          then some ⟨"foo.py", "H1", some "foo", "approved", some 5⟩
          else none)
        [⟨"foo.py", "H2", some "foo"⟩]).2 :=
  (C3_sync_quarantine_transitions
      (fun n => if n = "foo.py"
        then some ⟨"foo.py", "H1", some "foo", "approved", some 5⟩
        else none)
      [⟨"foo.py", "H2", some "foo"⟩] ⟨"foo.py", "H2", some "foo"⟩
      (by simp) (by decide) (by decide)).2.2.1
    ⟨"foo.py", "H1", some "foo", "approved", some 5⟩ rfl rfl (by decide)

theorem lookupJ_cons_pos (p : String × JVal) (ps : List (String × JVal))
    (k : String) (h : (p.1 == k) = true) : lookupJ (p :: ps) k = some p.2 := by
  simp [lookupJ, List.find?_cons_of_pos, h]

theorem lookupJ_cons_neg (p : String × JVal) (ps : List (String × JVal))
    (k : String) (h : (p.1 == k) = false) : lookupJ (p :: ps) k = lookupJ ps k := by
  simp [lookupJ, List.find?_cons, h]

theorem lookupJ_overwriteMap (l : List (String × JVal)) (k k' : String)
    (v : JVal) (hne : k' ≠ k) :
    lookupJ (l.map (fun p => if p.1 == k then (p.1, v) else p)) k'
      = lookupJ l k' := by
  induction l with
  | nil => rfl
  | cons p ps ih =>
    by_cases hk : (p.1 == k) = true
    · have hpk : p.1 = k := by simpa using hk
      have hk' : (p.1 == k') = false := by
        simp [hpk]
        exact fun h => hne h.symm
      rw [List.map_cons, if_pos hk, lookupJ_cons_neg (p.1, v) _ _ hk',
        lookupJ_cons_neg p _ _ hk']
      exact ih
    · rw [List.map_cons, if_neg hk]
      by_cases hk' : (p.1 == k') = true
      · rw [lookupJ_cons_pos _ _ _ hk', lookupJ_cons_pos _ _ _ hk']
      · have hkf' : (p.1 == k') = false := by simpa using hk'
        have hkf : (p.1 == k) = false := by simpa using hk
        rw [lookupJ_cons_neg _ _ _ hkf', lookupJ_cons_neg _ _ _ hkf']
        exact ih

theorem lookupJ_append_single (l : List (String × JVal)) (k k' : String)
    (v : JVal) (hne : k' ≠ k) :
    lookupJ (l ++ [(k, v)]) k' = lookupJ l k' := by
  induction l with
  | nil =>
    have hkf : (k == k') = false := by
      simp
      exact fun h => hne h.symm
    simp [lookupJ, List.find?, hkf]
  | cons p ps ih =>
    by_cases hk' : (p.1 == k') = true
    · rw [List.cons_append, lookupJ_cons_pos _ _ _ hk', lookupJ_cons_pos _ _ _ hk']
    · have hkf' : (p.1 == k') = false := by simpa using hk'
      rw [List.cons_append, lookupJ_cons_neg _ _ _ hkf', lookupJ_cons_neg _ _ _ hkf']
      exact ih

theorem lookupJ_map_self (l : List (String × JVal)) (k : String) (v : JVal)
    (h : l.any (fun p => p.1 == k) = true) :
    lookupJ (l.map (fun p => if p.1 == k then (p.1, v) else p)) k = some v := by
  induction l with
  | nil => simp at h
  | cons p ps ih =>
    by_cases hk : (p.1 == k) = true
    · rw [List.map_cons, if_pos hk, lookupJ_cons_pos (p.1, v) _ _ hk]
    · have hkf : (p.1 == k) = false := by simpa using hk
      have hps : ps.any (fun p => p.1 == k) = true := by
        simpa [List.any_cons, hkf] using h
      rw [List.map_cons, if_neg hk, lookupJ_cons_neg _ _ _ hkf]
      exact ih hps

theorem lookupJ_dictSet_self (l : List (String × JVal)) (k : String) (v : JVal) :
    lookupJ (dictSet l k v) k = some v := by
  unfold dictSet
  by_cases h : l.any (fun p => p.1 == k)
  · rw [if_pos h]
    exact lookupJ_map_self l k v h
  · rw [if_neg h]
    induction l with
    | nil => simp [lookupJ, List.find?]
    | cons p ps ih =>
      simp only [List.any_cons, Bool.or_eq_true] at h
      push_neg at h
      have hkf : (p.1 == k) = false := by
        cases hb : (p.1 == k)
        · rfl
        · exact absurd hb h.1
      have hps : ¬ ps.any (fun q => q.1 == k) = true := by simpa using h.2
      rw [List.cons_append, lookupJ_cons_neg _ _ _ hkf]
      exact ih hps

theorem lookupJ_dictSet_ne (l : List (String × JVal)) (k k' : String)
    (v : JVal) (hne : k' ≠ k) :
    lookupJ (dictSet l k v) k' = lookupJ l k' := by
  unfold dictSet
  by_cases h : l.any (fun p => p.1 == k)
  · rw [if_pos h]
    exact lookupJ_overwriteMap l k k' v hne
  · rw [if_neg h]
    exact lookupJ_append_single l k k' v hne

theorem lookupJ_foldl_dictSet_notin (ps : List (String × JVal)) :
    ∀ (acc : List (String × JVal)) (k : String), k ∉ ps.map Prod.fst →
    lookupJ (ps.foldl (fun a p => dictSet a p.1 p.2) acc) k = lookupJ acc k := by
  induction ps with
  | nil => intro acc k _; rfl
  | cons q qs ih =>
    intro acc k hk
    simp only [List.map_cons, List.mem_cons] at hk
    push_neg at hk
    rw [List.foldl_cons, ih (dictSet acc q.1 q.2) k hk.2]
    exact lookupJ_dictSet_ne acc q.1 k q.2 hk.1

theorem lookupJ_foldl_dictSet_mem (ps : List (String × JVal)) :
    ∀ (acc : List (String × JVal)) (p : String × JVal), p ∈ ps →
    (ps.map Prod.fst).Nodup →
    lookupJ (ps.foldl (fun a p => dictSet a p.1 p.2) acc) p.1 = some p.2 := by
  induction ps with
  | nil => intro acc p hp; cases hp
  | cons q qs ih =>
    intro acc p hp hnd
    simp only [List.map_cons, List.nodup_cons] at hnd
    rw [List.foldl_cons]
    rcases List.mem_cons.mp hp with hpq | hpq
    · subst hpq
      rw [lookupJ_foldl_dictSet_notin qs (dictSet acc p.1 p.2) p.1 hnd.1]
      exact lookupJ_dictSet_self acc p.1 p.2
    · exact ih (dictSet acc q.1 q.2) p hpq hnd.2

theorem count_ne_sample (key : String) : key ++ "_count" ≠ key ++ "_sample" := by
  intro h
  have hl := congrArg String.length h
  rw [String.length_append, String.length_append] at hl
  have h6 : ("_count" : String).length = 6 := rfl
  have h7 : ("_sample" : String).length = 7 := rfl
  omega

theorem genKeys_nodup (mi : Nat) (kv : String × JVal) : (genKeys mi kv).Nodup := by
  rcases kv with ⟨key, v⟩
  cases v with
  | null => simp [genKeys, entryStats]
  | bool b => simp [genKeys, entryStats]
  | num n => simp [genKeys, entryStats]
  | str s => by_cases h : s.length < 200 <;> simp [genKeys, entryStats, h]
  | obj fields =>
    by_cases h : (trimItem fields).isEmpty <;> simp [genKeys, entryStats, h]
  | list xs =>
    cases xs with
    | nil => simp [genKeys, entryStats]
    | cons x rest =>
      cases x with
      | obj fs =>
        cases hs : trimSamples ((JVal.obj fs :: rest).take mi) with
        | error e => simp [genKeys, entryStats, hs]
        | ok sample =>
          by_cases he : sample.isEmpty <;>
            simp [genKeys, entryStats, hs, he, count_ne_sample key]
      | null => simp [genKeys, entryStats, count_ne_sample key]
      | bool b => simp [genKeys, entryStats, count_ne_sample key]
      | num n => simp [genKeys, entryStats, count_ne_sample key]
      | str s => simp [genKeys, entryStats, count_ne_sample key]
      | list ys => simp [genKeys, entryStats, count_ne_sample key]

theorem trimSampleItem_ok (x y : JVal) (h : trimSampleItem x = Except.ok y) :
    ∃ gs, x = JVal.obj gs ∧ y = JVal.obj (trimItem gs) := by
  cases x with
  | obj gs =>
    simp only [trimSampleItem, Except.ok.injEq] at h
    exact ⟨gs, rfl, h.symm⟩
  | null => simp [trimSampleItem] at h
  | bool b => simp [trimSampleItem] at h
  | num n => simp [trimSampleItem] at h
  | str s => simp [trimSampleItem] at h
  | list ys => simp [trimSampleItem] at h

theorem trimSamples_length (l : List JVal) :
    ∀ ys, trimSamples l = Except.ok ys → ys.length = l.length := by
  induction l with
  | nil =>
    intro ys h
    simp only [trimSamples, Except.ok.injEq] at h
    subst h
    rfl
  | cons x xs ih =>
    intro ys h
    cases hx : trimSampleItem x with
    | error e => simp [trimSamples, hx] at h
    | ok y =>
      cases hxs : trimSamples xs with
      | error e => simp [trimSamples, hx, hxs] at h
      | ok zs =>
        simp only [trimSamples, hx, hxs, Except.ok.injEq] at h
        subst h
        simp [ih zs hxs]

theorem trimSamples_items (l : List JVal) :
    ∀ ys, trimSamples l = Except.ok ys →
    ∀ y ∈ ys, ∃ gs, y = JVal.obj (trimItem gs) := by
  induction l with
  | nil =>
    intro ys h
    simp only [trimSamples, Except.ok.injEq] at h
    subst h
    intro y hy
    cases hy
  | cons x xs ih =>
    intro ys h
    cases hx : trimSampleItem x with
    | error e => simp [trimSamples, hx] at h
    | ok y0 =>
      cases hxs : trimSamples xs with
      | error e => simp [trimSamples, hx, hxs] at h
      | ok zs =>
        simp only [trimSamples, hx, hxs, Except.ok.injEq] at h
        subst h
        intro y hy
        rcases List.mem_cons.mp hy with hy0 | hy0
        · obtain ⟨gs, _, hgs⟩ := trimSampleItem_ok x y0 hx
          rw [hy0]
          exact ⟨gs, hgs⟩
        · exact ih zs hxs y hy0

/-- When the whole stats loop succeeds, every entry's own statistics
succeeded. -/
theorem summaryStatsAux_entry_ok (mi : Nat) (rs : List (String × JVal)) :
    ∀ acc stats, summaryStatsAux mi acc rs = Except.ok stats →
    ∀ k v, (k, v) ∈ rs → ∃ ps, entryStats mi k v = Except.ok ps := by
  induction rs with
  | nil => intro acc stats _ k v hkv; cases hkv
  | cons r rest ih =>
    intro acc stats h k v hkv
    cases he : entryStats mi r.1 r.2 with
    | error e => simp [summaryStatsAux, he] at h
    | ok ps =>
      simp only [summaryStatsAux, he] at h
      rcases List.mem_cons.mp hkv with hkr | hkr
      · subst hkr
        exact ⟨ps, he⟩
      · exact ih _ stats h k v hkr

theorem summaryStatsAux_lookup_notin (mi : Nat) (rs : List (String × JVal)) :
    ∀ acc stats k, summaryStatsAux mi acc rs = Except.ok stats →
    k ∉ rs.flatMap (genKeys mi) →
    lookupJ stats k = lookupJ acc k := by
  induction rs with
  | nil =>
    intro acc stats k h _
    simp only [summaryStatsAux, Except.ok.injEq] at h
    subst h
    rfl
  | cons r rest ih =>
    intro acc stats k h hk
    rw [List.flatMap_cons] at hk
    simp only [List.mem_append] at hk
    push_neg at hk
    cases he : entryStats mi r.1 r.2 with
    | error e => simp [summaryStatsAux, he] at h
    | ok qs =>
      simp only [summaryStatsAux, he] at h
      rw [ih _ stats k h hk.2]
      apply lookupJ_foldl_dictSet_notin
      have hg : genKeys mi r = qs.map (fun p => p.1) := by simp [genKeys, he]
      intro hin
      apply hk.1
      rw [hg]
      exact hin

/-- A statistic written for one result entry can be read back from the full
stats dict, provided the loop succeeded and no two entries generate the same
key. -/
theorem summaryStatsAux_lookup (mi : Nat) (rs : List (String × JVal)) :
    ∀ acc stats, summaryStatsAux mi acc rs = Except.ok stats →
    (rs.flatMap (genKeys mi)).Nodup →
    ∀ k v, (k, v) ∈ rs → ∀ ps, entryStats mi k v = Except.ok ps →
    ∀ p ∈ ps, lookupJ stats p.1 = some p.2 := by
  induction rs with
  | nil => intro acc stats _ _ k v hkv; cases hkv
  | cons r rest ih =>
    intro acc stats h hnd k v hkv ps hps p hp
    rw [List.flatMap_cons, List.nodup_append] at hnd
    cases he : entryStats mi r.1 r.2 with
    | error e => simp [summaryStatsAux, he] at h
    | ok qs =>
      simp only [summaryStatsAux, he] at h
      rcases List.mem_cons.mp hkv with hkr | hkr
      · subst hkr
        have he2 : entryStats mi k v = Except.ok qs := he
        rw [hps] at he2
        have hqp : qs = ps := (Except.ok.inj he2).symm
        subst hqp
        have hgen : genKeys mi (k, v) = qs.map (fun p => p.1) := by
          simp [genKeys, hps]
        have hpkey : p.1 ∈ genKeys mi (k, v) := by
          rw [hgen]
          exact List.mem_map_of_mem _ hp
        have hnotin : p.1 ∉ rest.flatMap (genKeys mi) := fun hin => hnd.2.2 hpkey hin
        rw [summaryStatsAux_lookup_notin mi rest _ stats p.1 h hnotin]
        apply lookupJ_foldl_dictSet_mem qs _ p hp
        have hnod := genKeys_nodup mi (k, v)
        rw [hgen] at hnod
        exact hnod
      · exact ih _ stats h hnd.2.1 k v hkr ps hps p hp

theorem countPair_mem_entryStats (mi : Nat) (key : String) (xs : List JVal)
    (ps : List (String × JVal))
    (h : entryStats mi key (JVal.list xs) = Except.ok ps) :
    (key ++ "_count", JVal.num (xs.length : Int)) ∈ ps := by
  cases xs with
  | nil =>
    simp only [entryStats, Except.ok.injEq] at h
    subst h
    simp
  | cons x rest =>
    cases x with
    | obj fs =>
      cases hs : trimSamples ((JVal.obj fs :: rest).take mi) with
      | error e => simp [entryStats, hs] at h
      | ok sample =>
        simp only [entryStats, hs] at h
        by_cases he : sample.isEmpty
        · rw [if_pos he] at h
          simp only [Except.ok.injEq] at h
          subst h
          simp
        · rw [if_neg he] at h
          simp only [Except.ok.injEq] at h
          subst h
          simp
    | null =>
      simp only [entryStats, Except.ok.injEq] at h
      subst h
      simp
    | bool b =>
      simp only [entryStats, Except.ok.injEq] at h
      subst h
      simp
    | num n =>
      simp only [entryStats, Except.ok.injEq] at h
      subst h
      simp
    | str s =>
      simp only [entryStats, Except.ok.injEq] at h
      subst h
      simp
    | list ys =>
      simp only [entryStats, Except.ok.injEq] at h
      subst h
      simp

/-- For a nonempty dict-headed list whose sample trimming succeeded, the
entry emits exactly the count and the sample. -/
theorem entryStats_obj_head (mi : Nat) (key : String)
    (fs : List (String × JVal)) (rest : List JVal) (sample : List JVal)
    (hmi : mi ≠ 0)
    (hs : trimSamples ((JVal.obj fs :: rest).take mi) = Except.ok sample) :
    entryStats mi key (JVal.list (JVal.obj fs :: rest))
      = Except.ok
          [(key ++ "_count", JVal.num ((JVal.obj fs :: rest).length : Int)),
           (key ++ "_sample", JVal.list sample)] := by
  have hlen := trimSamples_length _ sample hs
  have hne : sample.isEmpty = false := by
    cases hsm : sample with
    | nil =>
      rw [hsm] at hlen
      simp [List.length_take] at hlen
      omega
    | cons a as => rfl
  simp [entryStats, hs, hne]

/-- For a nonempty list headed by a non-dict item, the entry emits the count
and the raw truncated sample. -/
theorem entryStats_nonobj_head (mi : Nat) (key : String) (x : JVal)
    (rest : List JVal) (hx : ∀ fs, x ≠ JVal.obj fs) :
    entryStats mi key (JVal.list (x :: rest))
      = Except.ok
          [(key ++ "_count", JVal.num ((x :: rest).length : Int)),
           (key ++ "_sample", JVal.list ((x :: rest).take mi))] := by
  cases x with
  | obj fs => exact absurd rfl (hx fs)
  | null => simp [entryStats]
  | bool b => simp [entryStats]
  | num n => simp [entryStats]
  | str s => simp [entryStats]
  | list ys => simp [entryStats]

theorem entryStats_str_short (mi : Nat) (key s : String)
    (h : s.length < 200) :
    entryStats mi key (JVal.str s) = Except.ok [(key, JVal.str s)] := by
  simp [entryStats, h]

theorem entryStats_str_long (mi : Nat) (key s : String)
    (h : ¬ s.length < 200) :
    entryStats mi key (JVal.str s)
      = Except.ok [(key, JVal.str (strTake 100 s ++ "..."))] := by
  simp [entryStats, h]

theorem trimItem_mem (fields : List (String × JVal)) (k : String) (v : JVal) :
    (k, v) ∈ trimItem fields ↔
      ((k, v) ∈ fields ∧ isScalarJ v = true ∧ scalarShortStr v = true) := by
  simp [trimItem, List.mem_filter, and_assoc]

theorem strTake_length_le (n : Nat) (s : String) : (strTake n s).length ≤ n := by
  show (s.data.take n).length ≤ n
  simp [List.length_take]

theorem auto_summarize_length_le (result : List (String × JVal))
    (maxChars maxItems : Nat) (out : String)
    (h : auto_summarize result maxChars maxItems = Except.ok out) :
    out.length ≤ maxChars + 3 := by
  cases hs : summaryStats maxItems result with
  | error e => simp [auto_summarize, hs] at h
  | ok stats =>
    simp only [auto_summarize, hs, Except.ok.injEq] at h
    by_cases hl : (serializeJ (JVal.obj stats)).length > maxChars
    · rw [if_pos hl] at h
      subst h
      rw [String.length_append]
      have h1 := strTake_length_le maxChars (serializeJ (JVal.obj stats))
      have h3 : ("..." : String).length = 3 := rfl
      omega
    · rw [if_neg hl] at h
      subst h
      omega

/-- C9 counterexamples, one per flaw of the claim.  First, an empty list
field contributes only its count entry and no sample entry (both sample
branches of base.py require a truthy list), so not every list field
contributes a sample.  Second, at token budget T = 1 the digest of a
one-entry result serializes to 14 characters, is cut at 4 = 4*T and gets a
3-character ellipsis appended, so the output has 7 > 4*T characters and the
serialized string is not hard-capped at 4*T.  Third, a dict-headed list
field with a non-dict second item makes `item.items()` raise AttributeError
(base.py line 199), so summarization produces no digest at all for such a
result. -/
theorem C9_summary_counterexample :
    summaryStats (max 5 (1000 / 50)) [("xs", JVal.list [])]
        = Except.ok [("xs_count", JVal.num 0)] ∧
    Except.map String.length (summary_for_llm [("note", JVal.str "hi")] 1)
        = Except.ok 7 ∧
    4 * 1 < 7 ∧
    summaryStats (max 5 (1000 / 50))
        [("hits", JVal.list [JVal.obj [("a", JVal.num 1)], JVal.num 5])]
        = Except.error "AttributeError" :=
  ⟨rfl, rfl, by omega, rfl⟩

/-- C9 (amended): whenever the summarization loop succeeds — a non-dict
item among the sampled items of a dict-headed list field instead raises
AttributeError — and the result entries generate pairwise distinct digest
keys, the digest gives each list field a `key_count` entry; each nonempty
dict-headed list field whose sample trimming succeeded gets a `key_sample`
of at most `max(5, T/50)` items, each a dict trimmed to its scalar fields
with strings shorter than 200 characters; each other nonempty list field
gets its first `max(5, T/50)` items verbatim as the sample; each string
field shorter than 200 characters appears verbatim while longer strings are
truncated to their first 100 characters plus an ellipsis; and any digest
summary_for_llm returns is capped at `4*T` characters plus a 3-character
ellipsis. -/
theorem C9_summary_digest (T : Nat) (result : List (String × JVal))
    (stats : List (String × JVal))
    (hok : summaryStats (max 5 (T / 50)) result = Except.ok stats)
    (hnd : (result.flatMap (genKeys (max 5 (T / 50)))).Nodup) :
    (∀ key xs, (key, JVal.list xs) ∈ result →
        lookupJ stats (key ++ "_count") = some (JVal.num (xs.length : Int))) ∧
    (∀ key fs rest, (key, JVal.list (JVal.obj fs :: rest)) ∈ result →
        ∃ sample,
          trimSamples ((JVal.obj fs :: rest).take (max 5 (T / 50)))
              = Except.ok sample ∧
          lookupJ stats (key ++ "_sample") = some (JVal.list sample) ∧
          sample.length ≤ max 5 (T / 50) ∧
          ∀ item ∈ sample, ∃ gs, item = JVal.obj (trimItem gs)) ∧
    (∀ key x rest, (key, JVal.list (x :: rest)) ∈ result →
        (∀ fs, x ≠ JVal.obj fs) →
        lookupJ stats (key ++ "_sample")
            = some (JVal.list ((x :: rest).take (max 5 (T / 50)))) ∧
        ((x :: rest).take (max 5 (T / 50))).length ≤ max 5 (T / 50)) ∧
    (∀ key s, (key, JVal.str s) ∈ result → s.length < 200 →
        lookupJ stats key = some (JVal.str s)) ∧
    (∀ key s, (key, JVal.str s) ∈ result → ¬ s.length < 200 →
        lookupJ stats key = some (JVal.str (strTake 100 s ++ "..."))) ∧
    (∀ fields k v, (k, v) ∈ trimItem fields ↔
        ((k, v) ∈ fields ∧ isScalarJ v = true ∧ scalarShortStr v = true)) ∧
    (∀ out, summary_for_llm result T = Except.ok out →
        out.length ≤ 4 * T + 3) := by
  have hmi : max 5 (T / 50) ≠ 0 := by
    have h5 : (5 : Nat) ≤ max 5 (T / 50) := le_max_left _ _
    omega
  have haux : summaryStatsAux (max 5 (T / 50)) [] result = Except.ok stats := hok
  refine ⟨?_, ?_, ?_, ?_, ?_, ?_, ?_⟩
  · intro key xs hmem
    obtain ⟨ps, hps⟩ := summaryStatsAux_entry_ok _ result [] stats haux key
      (JVal.list xs) hmem
    exact summaryStatsAux_lookup _ result [] stats haux hnd key (JVal.list xs)
      hmem ps hps (key ++ "_count", JVal.num (xs.length : Int))
      (countPair_mem_entryStats _ key xs ps hps)
  · intro key fs rest hmem
    cases hs : trimSamples ((JVal.obj fs :: rest).take (max 5 (T / 50))) with
    | error e =>
      obtain ⟨ps, hps⟩ := summaryStatsAux_entry_ok _ result [] stats haux key
        (JVal.list (JVal.obj fs :: rest)) hmem
      simp [entryStats, hs] at hps
    | ok sample =>
      have heq := entryStats_obj_head (max 5 (T / 50)) key fs rest sample hmi hs
      refine ⟨sample, rfl, ?_, ?_, ?_⟩
      · exact summaryStatsAux_lookup _ result [] stats haux hnd key
          (JVal.list (JVal.obj fs :: rest)) hmem _ heq
          (key ++ "_sample", JVal.list sample) (by simp)
      · rw [trimSamples_length _ sample hs]
        exact List.length_take_le _ _
      · intro item hitem
        exact trimSamples_items _ sample hs item hitem
  · intro key x rest hmem hx
    have heq := entryStats_nonobj_head (max 5 (T / 50)) key x rest hx
    refine ⟨?_, List.length_take_le _ _⟩
    exact summaryStatsAux_lookup _ result [] stats haux hnd key
      (JVal.list (x :: rest)) hmem _ heq
      (key ++ "_sample", JVal.list ((x :: rest).take (max 5 (T / 50)))) (by simp)
  · intro key s hmem hsl
    exact summaryStatsAux_lookup _ result [] stats haux hnd key (JVal.str s)
      hmem _ (entryStats_str_short (max 5 (T / 50)) key s hsl)
      (key, JVal.str s) (by simp)
  · intro key s hmem hsl
    exact summaryStatsAux_lookup _ result [] stats haux hnd key (JVal.str s)
      hmem _ (entryStats_str_long (max 5 (T / 50)) key s hsl)
      (key, JVal.str (strTake 100 s ++ "...")) (by simp)
  · exact trimItem_mem
  · intro out hout
    have hb := auto_summarize_length_le result (T * 4) (max 5 (T / 50)) out
      (by simpa [summary_for_llm] using hout)
    omega

/-- Witness for the amended C9 at a concrete result: a one-element list of
dicts gets a count of 1 and a trimmed sample (the nested list field of the
sampled dict is dropped), and a short string passes through verbatim. -/
theorem C9_summary_digest_witness :
    lookupJ [("hits_count", JVal.num 1),
        ("hits_sample", JVal.list [JVal.obj [("subject", JVal.str "s1")]]),
        ("note", JVal.str "ok")] ("hits" ++ "_count") = some (JVal.num 1) ∧
    lookupJ [("hits_count", JVal.num 1),
        ("hits_sample", JVal.list [JVal.obj [("subject", JVal.str "s1")]]),
        ("note", JVal.str "ok")] ("hits" ++ "_sample")
      = some (JVal.list [JVal.obj [("subject", JVal.str "s1")]]) ∧
    lookupJ [("hits_count", JVal.num 1),
        ("hits_sample", JVal.list [JVal.obj [("subject", JVal.str "s1")]]),
        ("note", JVal.str "ok")] "note" = some (JVal.str "ok") := by
  have H := C9_summary_digest 1000
    [("hits", JVal.list [JVal.obj [("subject", JVal.str "s1"),
        ("deep", JVal.list [])]]),
     ("note", JVal.str "ok")]
    [("hits_count", JVal.num 1),
     ("hits_sample", JVal.list [JVal.obj [("subject", JVal.str "s1")]]),
     ("note", JVal.str "ok")] rfl (by decide)
  refine ⟨?_, ?_, ?_⟩
  · exact H.1 "hits"
      [JVal.obj [("subject", JVal.str "s1"), ("deep", JVal.list [])]]
      (List.mem_cons_self _ _)
  · obtain ⟨sample, hs, hl, -, -⟩ := H.2.1 "hits"
      [("subject", JVal.str "s1"), ("deep", JVal.list [])] []
      (List.mem_cons_self _ _)
    have h2 : trimSamples ((JVal.obj [("subject", JVal.str "s1"),
          ("deep", JVal.list [])] :: ([] : List JVal)).take (max 5 (1000 / 50)))
        = Except.ok [JVal.obj [("subject", JVal.str "s1")]] := rfl
    rw [hs] at h2
    rw [Except.ok.inj h2] at hl
    exact hl
  · exact H.2.2.2.1 "note" "ok"
      (List.mem_cons_of_mem _ (List.mem_cons_self _ _)) (by decide)

theorem find?_append_none {α : Type} (p : α → Bool) (l1 l2 : List α)
    (h : l1.find? p = none) : (l1 ++ l2).find? p = l2.find? p := by
  induction l1 with
  | nil => rfl
  | cons a l ih =>
    cases hpa : p a with
    | true =>
      rw [List.find?_cons_of_pos _ hpa] at h
      cases h
    | false =>
      rw [List.find?_cons_of_neg _ (by simp [hpa])] at h
      rw [List.cons_append, List.find?_cons_of_neg _ (by simp [hpa])]
      exact ih h

/-- C4: ingest_file is a no-op on unchanged input — when the stored row's
hash equals the current file hash, it returns nil and leaves the database
untouched (whatever the parser would do) — and ingesting the same unchanged
file twice produces one indexed result followed by one "unchanged" no-op. -/
theorem C4_ingest_unchanged_noop (db : DbState) (path fileHash : String)
    (fileSize fileMtime : Nat) (parse : Except String ParseResult)
    (ef : IndexedFile) (hfind : findFile db path = some ef)
    (hhash : ef.file_hash = fileHash)
    (db2 : DbState) (hfresh : findFile db2 path = none)
    (r : ParseResult) (s2 m2 s3 m3 : Nat) (parse3 : Except String ParseResult) :
    ingest_file db path fileHash fileSize fileMtime parse = (db, none) ∧
    (ingest_file db2 path fileHash s2 m2 (Except.ok r)).2 = some db2.nextId ∧
    ingest_file (ingest_file db2 path fileHash s2 m2 (Except.ok r)).1 path
        fileHash s3 m3 parse3
      = ((ingest_file db2 path fileHash s2 m2 (Except.ok r)).1, none) := by
  have hb : (ef.file_hash == fileHash) = true := by simp [hhash]
  refine ⟨?_, ?_, ?_⟩
  · simp [ingest_file, hfind, hb]
  · simp [ingest_file, hfresh]
  · have hstep : ingest_file db2 path fileHash s2 m2 (Except.ok r)
        = (insertParsed
            { db2 with
              files := db2.files ++
                [{ id := db2.nextId, file_path := path, file_hash := fileHash,
                   format := fileExt path, status := "active",
                   error_msg := none, file_size := s2, file_mtime := m2 }],
              nextId := db2.nextId + 1 } db2.nextId r, some db2.nextId) := by
      simp [ingest_file, hfresh]
    have hfind2 : findFile (ingest_file db2 path fileHash s2 m2 (Except.ok r)).1 path
        = some { id := db2.nextId, file_path := path, file_hash := fileHash,
                 format := fileExt path, status := "active", error_msg := none,
                 file_size := s2, file_mtime := m2 } := by
      rw [hstep]
      show ((db2.files ++ [_]).find? _) = _
      rw [find?_append_none _ db2.files _ hfresh]
      simp [List.find?]
    generalize hX : (ingest_file db2 path fileHash s2 m2 (Except.ok r)).1 = db1 at hfind2 ⊢
    simp [ingest_file, hfind2]

/-- Witness for C4: an up-to-date row short-circuits ingestion even when the
parser would fail; a fresh file indexes once, and a second ingest of the
same bytes is the "unchanged" no-op. -/
theorem C4_ingest_unchanged_noop_witness :
    ingest_file
        ⟨[⟨1, "/w/a.gb", "h1", "gb", "active", none, 4, 0⟩], [], [], [], 2⟩
        "/w/a.gb" "h1" 4 0 (Except.error "boom")
      = (⟨[⟨1, "/w/a.gb", "h1", "gb", "active", none, 4, 0⟩], [], [], [], 2⟩, none) ∧
    (ingest_file ⟨[], [], [], [], 0⟩ "/w/a.gb" "h1" 4 0
        (Except.ok ⟨"pUC19", "ATGC", 4, "circular", none, [], [], none⟩)).2
      = some 0 ∧
    ingest_file
        (ingest_file ⟨[], [], [], [], 0⟩ "/w/a.gb" "h1" 4 0
          (Except.ok ⟨"pUC19", "ATGC", 4, "circular", none, [], [], none⟩)).1
        "/w/a.gb" "h1" 4 0 (Except.error "boom")
      = ((ingest_file ⟨[], [], [], [], 0⟩ "/w/a.gb" "h1" 4 0
          (Except.ok ⟨"pUC19", "ATGC", 4, "circular", none, [], [], none⟩)).1,
         none) :=
  C4_ingest_unchanged_noop
    ⟨[⟨1, "/w/a.gb", "h1", "gb", "active", none, 4, 0⟩], [], [], [], 2⟩
    "/w/a.gb" "h1" 4 0 (Except.error "boom")
    ⟨1, "/w/a.gb", "h1", "gb", "active", none, 4, 0⟩ rfl rfl
    ⟨[], [], [], [], 0⟩ rfl
    ⟨"pUC19", "ATGC", 4, "circular", none, [], [], none⟩ 4 0 4 0
    (Except.error "boom")

theorem find?_map_of_pred_preserved {α : Type} (l : List α) (p : α → Bool)
    (g : α → α) (hg : ∀ x, p (g x) = p x) :
    (l.map g).find? p = (l.find? p).map g := by
  induction l with
  | nil => rfl
  | cons a as ih =>
    cases hp : p a with
    | true =>
      rw [List.map_cons, List.find?_cons_of_pos _ (by rw [hg]; exact hp),
        List.find?_cons_of_pos _ hp]
      rfl
    | false =>
      rw [List.map_cons, List.find?_cons_of_neg _ (by simp [hg a, hp]),
        List.find?_cons_of_neg _ (by simp [hp])]
      exact ih

theorem minById_mem (l : List Sequence) (s : Sequence) (h : minById l = some s) :
    s ∈ l := by
  induction l with
  | nil => cases h
  | cons a as ih =>
    simp only [minById] at h
    cases hm : minById as with
    | none =>
      rw [hm] at h
      simp only [] at h
      cases h
      exact List.mem_cons_self _ _
    | some t =>
      rw [hm] at h
      simp only [] at h
      by_cases hle : a.id ≤ t.id
      · rw [if_pos hle] at h
        cases h
        exact List.mem_cons_self _ _
      · rw [if_neg hle] at h
        cases h
        exact List.mem_cons_of_mem _ (ih hm)

theorem resolve_sequence_active (db : DbState) (sid : Option Nat)
    (name : Option String) (s : Sequence)
    (h : resolve_sequence db sid name = some s) :
    s ∈ db.seqs ∧ isActiveFile db s.file_id = true := by
  cases sid with
  | some i =>
    simp only [resolve_sequence] at h
    have hmem := minById_mem _ _ h
    have h1 := List.mem_filter.mp hmem
    have h2 := List.mem_filter.mp h1.1
    exact ⟨h2.1, h2.2⟩
  | none =>
    cases name with
    | none => simp [resolve_sequence] at h
    | some n =>
      simp only [resolve_sequence] at h
      by_cases hn : n.isEmpty
      · rw [if_pos hn] at h
        cases h
      · rw [if_neg hn] at h
        have hmem := minById_mem _ _ h
        have h1 := List.mem_filter.mp hmem
        have h2 := List.mem_filter.mp h1.1
        exact ⟨h2.1, h2.2⟩

/-- Every search result is generated from a sequence row of an active file,
carries that row's id, and scores by the combined per-term scores. -/
theorem searchExec_from_seqs (sim : String → String → ℚ) (db : DbState)
    (q : String) (tags : Option String) (fl : SearchFilters)
    (res : SearchResultItem) (h : res ∈ searchExec sim db q tags fl) :
    ∃ s, s ∈ db.seqs ∧ isActiveFile db s.file_id = true ∧ res.sid = s.id ∧
      res.score = combineScores (_parse_bool_query q).2
        ((_parse_bool_query q).1.map (termScore sim db s)) ∧
      rowMatches sim db (_parse_bool_query q).1 (_parse_bool_query q).2 s = true := by
  simp only [searchExec, List.mem_map] at h
  obtain ⟨s, hs, hres⟩ := h
  have h1 := List.mem_filter.mp hs
  obtain ⟨hmem, hcond⟩ := h1
  simp only [Bool.and_eq_true] at hcond
  subst hres
  exact ⟨s, hmem, hcond.1.1.1, rfl, rfl, hcond.1.1.2⟩

/-- C10: on a parse failure over an existing row with a changed hash, only
status and error_msg change — hash, size, mtime and all previously inserted
sequences, features and primers stay — the file's sequences are no longer
reachable through resolve_sequence or search (both require an active file),
and a later ingest of the same still-failing bytes re-parses instead of
taking the "unchanged" no-op branch. -/
theorem C10_error_path_frame (sim : String → String → ℚ) (db : DbState)
    (path newHash : String) (fileSize fileMtime : Nat) (e : String)
    (ef : IndexedFile) (hfind : findFile db path = some ef)
    (hhash : ef.file_hash ≠ newHash)
    (hids : (db.files.map IndexedFile.id).Nodup) :
    (ingest_file db path newHash fileSize fileMtime (Except.error e)).2 = none ∧
    (ingest_file db path newHash fileSize fileMtime (Except.error e)).1.seqs
      = db.seqs ∧
    (ingest_file db path newHash fileSize fileMtime (Except.error e)).1.feats
      = db.feats ∧
    (ingest_file db path newHash fileSize fileMtime (Except.error e)).1.primers
      = db.primers ∧
    (ingest_file db path newHash fileSize fileMtime (Except.error e)).1.nextId
      = db.nextId ∧
    findFile (ingest_file db path newHash fileSize fileMtime (Except.error e)).1 path
      = some { ef with status := "error", error_msg := some e } ∧
    (∀ sid name s,
        resolve_sequence
            (ingest_file db path newHash fileSize fileMtime (Except.error e)).1
            sid name = some s →
        s.file_id ≠ ef.id) ∧
    (∀ q tags fl res,
        res ∈ searchExec sim
            (ingest_file db path newHash fileSize fileMtime (Except.error e)).1
            q tags fl →
        ∃ s, s ∈ (ingest_file db path newHash fileSize fileMtime (Except.error e)).1.seqs ∧
          res.sid = s.id ∧ s.file_id ≠ ef.id) ∧
    hashUnchanged (ingest_file db path newHash fileSize fileMtime (Except.error e)).1
        path newHash = false := by
  have hb : (ef.file_hash == newHash) = false := by simp [hhash]
  have hout : ingest_file db path newHash fileSize fileMtime (Except.error e)
      = ({ db with files := db.files.map (fun f =>
            if f.id == ef.id then { f with status := "error", error_msg := some e }
            else f) }, none) := by
    simp [ingest_file, hfind, hb]
  have hpathkeep : ∀ f : IndexedFile,
      ((fun f : IndexedFile => if f.id == ef.id
          then { f with status := "error", error_msg := some e } else f) f).file_path
        = f.file_path := by
    intro f
    by_cases hi : (f.id == ef.id) = true
    · simp [hi]
    · simp [hi]
  have hfind' : findFile
      (ingest_file db path newHash fileSize fileMtime (Except.error e)).1 path
      = some { ef with status := "error", error_msg := some e } := by
    rw [hout]
    show ((db.files.map _).find? _) = _
    rw [find?_map_of_pred_preserved db.files _ _
      (fun f => by rw [hpathkeep f])]
    rw [show db.files.find? (fun f => f.file_path == path) = some ef from hfind]
    simp
  have hmemef : ef ∈ db.files := List.mem_of_find?_eq_some hfind
  have hfindid : db.files.find? (fun f => f.id == ef.id) = some ef := by
    have hsome : (db.files.find? (fun f => f.id == ef.id)).isSome := by
      rw [List.find?_isSome]
      exact ⟨ef, hmemef, by simp⟩
    obtain ⟨x, hx⟩ := Option.isSome_iff_exists.mp hsome
    have hxmem := List.mem_of_find?_eq_some hx
    have hxid : x.id = ef.id := by simpa using List.find?_some hx
    have hinj := List.inj_on_of_nodup_map hids
    have := hinj hxmem hmemef hxid
    rw [hx, this]
  have hactive : isActiveFile
      (ingest_file db path newHash fileSize fileMtime (Except.error e)).1 ef.id
      = false := by
    rw [hout]
    simp only [isActiveFile]
    rw [find?_map_of_pred_preserved db.files (fun f => f.id == ef.id) _
      (fun f => by
        by_cases hi : (f.id == ef.id) = true
        · simp [hi]
        · simp [hi])]
    rw [hfindid]
    simp
  refine ⟨by rw [hout], by rw [hout], by rw [hout], by rw [hout], by rw [hout],
    hfind', ?_, ?_, ?_⟩
  · intro sid name s hres heq
    have hac := (resolve_sequence_active _ _ _ _ hres).2
    rw [heq, hactive] at hac
    cases hac
  · intro q tags fl res hres
    obtain ⟨s, hmem, hact, hsid, _, _⟩ := searchExec_from_seqs sim _ q tags fl res hres
    refine ⟨s, hmem, hsid, fun heq => ?_⟩
    rw [heq, hactive] at hact
    cases hact
  · simp only [hashUnchanged, hfind']
    have : ({ ef with status := "error", error_msg := some e } :
        IndexedFile).file_hash = ef.file_hash := rfl
    simp [this, hhash]

/-- Witness for C10: a changed file that fails to parse keeps its old hash,
size, mtime and its sequences, gets status error, and its hash no longer
matches the failing bytes, so a re-ingest re-parses. -/
theorem C10_error_path_frame_witness :
    (ingest_file
        ⟨[⟨1, "/w/a.gb", "h1", "gb", "active", none, 4, 0⟩],
         [⟨7, 1, "pUC19", 4, "circular", "ATGC", none, none⟩], [], [], 8⟩
        "/w/a.gb" "h2" 9 5 (Except.error "boom")).2 = none ∧
    (ingest_file
        ⟨[⟨1, "/w/a.gb", "h1", "gb", "active", none, 4, 0⟩],
         [⟨7, 1, "pUC19", 4, "circular", "ATGC", none, none⟩], [], [], 8⟩
        "/w/a.gb" "h2" 9 5 (Except.error "boom")).1.seqs
      = [⟨7, 1, "pUC19", 4, "circular", "ATGC", none, none⟩] ∧
    findFile (ingest_file
        ⟨[⟨1, "/w/a.gb", "h1", "gb", "active", none, 4, 0⟩],
         [⟨7, 1, "pUC19", 4, "circular", "ATGC", none, none⟩], [], [], 8⟩
        "/w/a.gb" "h2" 9 5 (Except.error "boom")).1 "/w/a.gb"
      = some ⟨1, "/w/a.gb", "h1", "gb", "error", some "boom", 4, 0⟩ ∧
    hashUnchanged (ingest_file
        ⟨[⟨1, "/w/a.gb", "h1", "gb", "active", none, 4, 0⟩],
         [⟨7, 1, "pUC19", 4, "circular", "ATGC", none, none⟩], [], [], 8⟩
        "/w/a.gb" "h2" 9 5 (Except.error "boom")).1 "/w/a.gb" "h2" = false := by
  have H := C10_error_path_frame (fun _ _ => (0 : ℚ))
    ⟨[⟨1, "/w/a.gb", "h1", "gb", "active", none, 4, 0⟩],
     [⟨7, 1, "pUC19", 4, "circular", "ATGC", none, none⟩], [], [], 8⟩
    "/w/a.gb" "h2" 9 5 "boom"
    ⟨1, "/w/a.gb", "h1", "gb", "active", none, 4, 0⟩ rfl (by decide) (by decide)
  exact ⟨H.1, H.2.1, H.2.2.2.2.2.1, H.2.2.2.2.2.2.2.2⟩

/-- C5: for the extract tool, a region "a:b" given 1-based inclusive becomes
the 0-based end-exclusive slice [a-1, b) of the parent (characterized
positionally); when the slice start exceeds its end on a circular-topology
sequence the result wraps around (suffix from start concatenated with prefix
up to end); and a strand −1 feature returns the reverse complement of the
plus-strand slice [start, end). -/
theorem C5_extract_slicing (parent topology : String) (a b fstart fend : Nat)
    (ha : 1 ≤ a) (hab : a ≤ b + 1) (hb : b ≤ parent.length) :
    ((regionSubseq parent topology a b).length = b + 1 - a ∧
      ∀ i, i < b + 1 - a →
        (regionSubseq parent topology a b).data[i]? = parent.data[a - 1 + i]?) ∧
    (fend < fstart → topology = "circular" →
      _slice_sequence parent fstart fend topology
        = String.mk (parent.data.drop fstart) ++ String.mk (parent.data.take fend)) ∧
    featureSubseq parent topology fstart fend (-1)
      = reverse_complement (featureSubseq parent topology fstart fend 1) := by
  have hle : a - 1 ≤ b := by omega
  have hregion : regionSubseq parent topology a b
      = String.mk ((parent.data.drop (a - 1)).take (b - (a - 1))) := by
    simp [regionSubseq, _slice_sequence, hle, strSlice]
  refine ⟨⟨?_, ?_⟩, ?_, ?_⟩
  · rw [hregion]
    show ((parent.data.drop (a - 1)).take (b - (a - 1))).length = b + 1 - a
    rw [List.length_take, List.length_drop]
    have hlen : b ≤ parent.data.length := hb
    omega
  · intro i hi
    rw [hregion]
    show ((parent.data.drop (a - 1)).take (b - (a - 1)))[i]? = parent.data[a - 1 + i]?
    rw [List.getElem?_take, if_pos (by omega), List.getElem?_drop]
  · intro hlt htopo
    have hnle : ¬ fstart ≤ fend := by omega
    simp [_slice_sequence, hnle, htopo]
  · simp [featureSubseq]

/-- Witness for C5 on "ATGCGT": region 2:5 has length 4, the circular slice
4:2 wraps to "GTAT", and the strand −1 extraction reverse-complements the
plus-strand slice. -/
theorem C5_extract_slicing_witness :
    (regionSubseq "ATGCGT" "circular" 2 5).length = 4 ∧
    _slice_sequence "ATGCGT" 4 2 "circular" = "GTAT" ∧
    featureSubseq "ATGCGT" "circular" 4 2 (-1)
      = reverse_complement (featureSubseq "ATGCGT" "circular" 4 2 1) := by
  have H := C5_extract_slicing "ATGCGT" "circular" 2 5 4 2
    (by decide) (by decide) (by decide)
  exact ⟨H.1.1, H.2.1 (by decide) rfl, H.2.2⟩

theorem combineScores_and_pair (x y : ℚ) :
    combineScores BoolOp.and [x, y] = min x y := rfl

theorem combineScores_or_pair (x y : ℚ) :
    combineScores BoolOp.or [x, y] = max x y := rfl

theorem termCond_floor (sim : String → String → ℚ) (db : DbState)
    (s : Sequence) (t : String) (h : termCond sim db s t = true) :
    scoredFieldFloor sim db s t := by
  simp only [termCond, Bool.or_eq_true, decide_eq_true_eq, beq_iff_eq] at h
  unfold scoredFieldFloor
  rcases h with ((((h | h) | h) | h) | h)
  · exact Or.inl (Or.inl (le_of_lt h))
  · exact Or.inl (Or.inr (Or.inl (le_of_lt h)))
  · exact Or.inl (Or.inr (Or.inr (Or.inl (le_of_lt h))))
  · exact Or.inl (Or.inr (Or.inr (Or.inr (le_of_lt h))))
  · exact Or.inr h.symm

/-- C6: for a boolean query parsing to two terms, every returned record
passes, for each term, the similarity-or-topology floor on at least one
scored field, and the returned score is the minimum of the per-term scores
under `&&` and the maximum under `||`. -/
theorem C6_search_bool_semantics (sim : String → String → ℚ) (db : DbState)
    (q : String) (tags : Option String) (fl : SearchFilters) (a b : String) :
    (_parse_bool_query q = ([a, b], BoolOp.and) →
      ∀ res ∈ searchExec sim db q tags fl, ∃ s, s ∈ db.seqs ∧
        res.sid = s.id ∧
        res.score = min (termScore sim db s a) (termScore sim db s b) ∧
        scoredFieldFloor sim db s a ∧ scoredFieldFloor sim db s b) ∧
    (_parse_bool_query q = ([a, b], BoolOp.or) →
      ∀ res ∈ searchExec sim db q tags fl, ∃ s, s ∈ db.seqs ∧
        res.sid = s.id ∧
        res.score = max (termScore sim db s a) (termScore sim db s b)) := by
  constructor
  · intro hp res hres
    obtain ⟨s, hmem, _, hsid, hscore, hmatch⟩ :=
      searchExec_from_seqs sim db q tags fl res hres
    rw [hp] at hscore hmatch
    simp only [List.map_cons, List.map_nil] at hscore
    rw [combineScores_and_pair] at hscore
    simp only [rowMatches, List.all_cons, List.all_nil, Bool.and_eq_true,
      Bool.and_true] at hmatch
    exact ⟨s, hmem, hsid, hscore,
      termCond_floor sim db s a hmatch.1, termCond_floor sim db s b hmatch.2⟩
  · intro hp res hres
    obtain ⟨s, hmem, _, hsid, hscore, _⟩ :=
      searchExec_from_seqs sim db q tags fl res hres
    rw [hp] at hscore
    simp only [List.map_cons, List.map_nil] at hscore
    rw [combineScores_or_pair] at hscore
    exact ⟨s, hmem, hsid, hscore⟩

/-- Witness for C6, mirroring seed scenario 2: under a similarity scoring
that rates every pair 1, the query "kan && linear" returns pKanLinear with
both per-term floors satisfied and the minimum combined score. -/
theorem C6_search_bool_semantics_witness :
    scoredFieldFloor (fun _ _ => (1 : ℚ))
      ⟨[⟨1, "/w/k.gb", "h1", "gb", "active", none, 4, 0⟩],
       [⟨7, 1, "pKanLinear", 4, "linear", "ATGC", none, none⟩], [], [], 8⟩
      ⟨7, 1, "pKanLinear", 4, "linear", "ATGC", none, none⟩ "kan" ∧
    scoredFieldFloor (fun _ _ => (1 : ℚ))
      ⟨[⟨1, "/w/k.gb", "h1", "gb", "active", none, 4, 0⟩],
       [⟨7, 1, "pKanLinear", 4, "linear", "ATGC", none, none⟩], [], [], 8⟩
      ⟨7, 1, "pKanLinear", 4, "linear", "ATGC", none, none⟩ "linear" ∧
    ({ sid := 7, name := "pKanLinear", size_bp := 4, topology := "linear",
       features := [], tags := [], file_path := "/w/k.gb",
       score := 1 } : SearchResultItem).score
      = min
        (termScore (fun _ _ => (1 : ℚ))
          ⟨[⟨1, "/w/k.gb", "h1", "gb", "active", none, 4, 0⟩],
           [⟨7, 1, "pKanLinear", 4, "linear", "ATGC", none, none⟩], [], [], 8⟩
          ⟨7, 1, "pKanLinear", 4, "linear", "ATGC", none, none⟩ "kan")
        (termScore (fun _ _ => (1 : ℚ))
          ⟨[⟨1, "/w/k.gb", "h1", "gb", "active", none, 4, 0⟩],
           [⟨7, 1, "pKanLinear", 4, "linear", "ATGC", none, none⟩], [], [], 8⟩
          ⟨7, 1, "pKanLinear", 4, "linear", "ATGC", none, none⟩ "linear") := by
  have H := (C6_search_bool_semantics (fun _ _ => (1 : ℚ))
    ⟨[⟨1, "/w/k.gb", "h1", "gb", "active", none, 4, 0⟩],
     [⟨7, 1, "pKanLinear", 4, "linear", "ATGC", none, none⟩], [], [], 8⟩
    "kan && linear" none ⟨none, none, none, none⟩ "kan" "linear").1 (by decide)
  obtain ⟨s, hmem, hsid, hscore, hfa, hfb⟩ := H
    { sid := 7, name := "pKanLinear", size_bp := 4, topology := "linear",
      features := [], tags := [], file_path := "/w/k.gb", score := 1 }
    (by decide)
  have hs : s = ⟨7, 1, "pKanLinear", 4, "linear", "ATGC", none, none⟩ := by
    simpa using hmem
  subst hs
  exact ⟨hfa, hfb, hscore⟩

theorem segsArePfx_append (rs l : List String) : segsArePfx rs (rs ++ l) = true := by
  induction rs with
  | nil => rfl
  | cons x xs ih => simp [segsArePfx, ih]

/-- C7: for every file that parses successfully under a watched root, the
inserted Sequence row carries meta.tags equal to the ordered list of
directory segments of the file's path relative to the watched root
(spec-modelled, see `extract_tags`). -/
theorem C7_meta_tags_from_root (db : DbState) (path root : String)
    (dirs : List String) (fname : String) (fileHash : String)
    (fileSize fileMtime : Nat) (r : ParseResult)
    (hsplit : splitPath path = splitPath root ++ (dirs ++ [fname]))
    (hfresh : findFile db path = none) :
    extract_tags path root = dirs ∧
    ∃ s : Sequence,
      (ingest_file_spec db path fileHash fileSize fileMtime (Except.ok r)
          (some root)).1.seqs = db.seqs ++ [s] ∧
      s.meta_tags = some dirs := by
  have htags : extract_tags path root = dirs := by
    simp only [extract_tags]
    rw [hsplit, segsArePfx_append, if_pos rfl]
    rw [List.drop_left]
    exact List.dropLast_concat
  refine ⟨htags, ?_⟩
  refine ⟨{
    id := db.nextId + 1,
    file_id := db.nextId,
    name := r.name,
    size_bp := r.size_bp,
    topology := r.topology,
    sequence := r.sequence,
    description := r.description,
    meta_tags := some dirs }, ?_, rfl⟩
  simp [ingest_file_spec, ingest_file, hfresh, Except.map, insertParsed,
    ingest_meta_tags, htags]

/-- Witness for C7 at a concrete path under a concrete root. -/
theorem C7_meta_tags_from_root_witness :
    extract_tags "/watcher/proj/sub/file.dna" "/watcher" = ["proj", "sub"] ∧
    ((ingest_file_spec ⟨[], [], [], [], 0⟩ "/watcher/proj/sub/file.dna" "h1" 4 0
        (Except.ok ⟨"pGFP", "ATGC", 4, "circular", none, [], [], none⟩)
        (some "/watcher")).1.seqs.map Sequence.meta_tags)
      = [some ["proj", "sub"]] := by
  obtain ⟨h1, s, hs, hm⟩ := C7_meta_tags_from_root ⟨[], [], [], [], 0⟩
    "/watcher/proj/sub/file.dna" "/watcher" ["proj", "sub"] "file.dna" "h1" 4 0
    ⟨"pGFP", "ATGC", 4, "circular", none, [], [], none⟩ (by decide) rfl
  refine ⟨h1, ?_⟩
  rw [hs]
  simp [hm]

theorem chatCount_append (l1 l2 : List Ev) :
    chatCount (l1 ++ l2) = chatCount l1 + chatCount l2 := by
  induction l1 with
  | nil => simp [chatCount]
  | cons e es ih =>
    cases e with
    | chat tools choice => simp [chatCount, ih]; omega
    | exec t => simp [chatCount, ih]

theorem execCalls_chatCount (registry : List String) (calls : List ToolCall) :
    ∀ last, chatCount (execCalls registry last calls).1 = 0 := by
  induction calls with
  | nil => intro last; rfl
  | cons c cs ih =>
    intro last
    by_cases hc : registry.contains c.name
    · simp only [execCalls, hc, if_true]
      simpa [chatCount] using ih (some c.name)
    · simp only [execCalls, hc, if_false]
      exact ih last

theorem loopSteps_chatCount (registry : List String) :
    ∀ (fuel : Nat) (replies : List Reply) (s : LoopState),
    chatCount (loopSteps registry fuel replies s) ≤ fuel := by
  intro fuel
  induction fuel with
  | zero => intro replies s; simp [loopSteps, chatCount]
  | succ n ih =>
    intro replies s
    cases replies with
    | nil => simp [loopSteps, chatCount]
    | cons r rest =>
      cases r with
      | failure => simp [loopSteps, chatCount]
      | refusal => simp [loopSteps, chatCount]
      | msg calls =>
        by_cases hstop : calls.isEmpty || s.forceText
        · simp [loopSteps, hstop, chatCount]
        · simp only [loopSteps, hstop, if_false, chatCount, chatCount_append]
          have h1 := execCalls_chatCount registry calls s.lastTool
          have h2 := ih rest (narrowState registry { s with lastTool := (execCalls registry s.lastTool calls).2 })
          omega

theorem nextTools_of_terminal (t : String) (h : isTerminalTool t = true) :
    _NEXT_TOOLS t = some [] := by
  unfold isTerminalTool at h
  simp only [Bool.or_eq_true, beq_iff_eq] at h
  rcases h with ((((h | h) | h) | h) | h) | h <;> subst h <;> rfl

theorem narrowState_lastTool (registry : List String) (s : LoopState) :
    (narrowState registry s).lastTool = s.lastTool := by
  cases hl : s.lastTool with
  | none => simp [narrowState, hl]
  | some t =>
    cases hn : _NEXT_TOOLS t with
    | none => simp [narrowState, hl, hn]
    | some allowed =>
      simp only [narrowState, hl, hn]
      split
      · rfl
      · split
        · rfl
        · rfl

theorem narrowState_terminal_force (registry : List String) (s : LoopState)
    (h : lastIsTerminal s.lastTool = true) :
    (narrowState registry s).forceText = true := by
  unfold narrowState
  cases hl : s.lastTool with
  | none => rw [hl] at h; simp [lastIsTerminal] at h
  | some t =>
    rw [hl] at h
    have hnt : _NEXT_TOOLS t = some [] :=
      nextTools_of_terminal t (by simpa [lastIsTerminal] using h)
    simp [hnt]

theorem terminalOk_execCalls (registry : List String) (calls : List ToolCall) :
    ∀ (last : Option String) (tr : List Ev),
    terminalOk (execCalls registry last calls).2 tr →
    terminalOk last ((execCalls registry last calls).1 ++ tr) := by
  induction calls with
  | nil => intro last tr h; exact h
  | cons c cs ih =>
    intro last tr h
    by_cases hc : registry.contains c.name
    · simp only [execCalls, hc, if_true] at h ⊢
      show terminalOk last (Ev.exec c.name :: ((execCalls registry (some c.name) cs).1 ++ tr))
      show terminalOk (some c.name) ((execCalls registry (some c.name) cs).1 ++ tr)
      exact ih (some c.name) tr h
    · simp only [execCalls, hc, if_false] at h ⊢
      exact ih last tr h

theorem loopSteps_terminalOk (registry : List String) :
    ∀ (fuel : Nat) (replies : List Reply) (s : LoopState),
    (lastIsTerminal s.lastTool = true → s.forceText = true) →
    terminalOk s.lastTool (loopSteps registry fuel replies s) := by
  intro fuel
  induction fuel with
  | zero => intro replies s _; exact trivial
  | succ n ih =>
    intro replies s hinv
    have hcall : (lastIsTerminal s.lastTool = true →
        (if s.forceText then noopSchema else s.schemas) = noopSchema ∧
        s.forceText = true) := by
      intro ht
      have := hinv ht
      rw [this]
      exact ⟨rfl, rfl⟩
    cases replies with
    | nil => exact ⟨hcall, trivial⟩
    | cons r rest =>
      cases r with
      | failure => exact ⟨hcall, trivial⟩
      | refusal => exact ⟨hcall, trivial⟩
      | msg calls =>
        by_cases hstop : calls.isEmpty || s.forceText
        · simp only [loopSteps, hstop, if_true]
          exact ⟨hcall, trivial⟩
        · simp only [loopSteps, hstop, if_false]
          refine ⟨hcall, ?_⟩
          apply terminalOk_execCalls
          have hlt := narrowState_lastTool registry
            { s with lastTool := (execCalls registry s.lastTool calls).2 }
          have hstate := ih rest
            (narrowState registry
              { s with lastTool := (execCalls registry s.lastTool calls).2 })
            (by
              intro ht
              apply narrowState_terminal_force
              rw [hlt] at ht
              exact ht)
          rw [hlt] at hstate
          exact hstate

/-- C1: in the agentic loop, for every registry, every max_turns and every
sequence of LLM replies, the number of chat calls while processing one
message is at most max_turns + 1 (the loop in fact makes at most max_turns),
and whenever the most recently executed tool is terminal (blast, translate,
transcribe, digest, gc, revcomp), any later chat call before another tool
runs passes the single dummy schema with tool_choice="none". -/
theorem C1_loop_bound_and_terminal_choice (registry : List String)
    (maxTurns : Nat) (replies : List Reply) :
    chatCount (_unified_loop_trace registry maxTurns replies) ≤ maxTurns + 1 ∧
    terminalOk none (_unified_loop_trace registry maxTurns replies) := by
  constructor
  · have h := loopSteps_chatCount registry maxTurns replies
      { schemas := registry, forceText := false, lastTool := none }
    simp only [_unified_loop_trace]
    omega
  · exact loopSteps_terminalOk registry maxTurns replies
      { schemas := registry, forceText := false, lastTool := none }
      (by intro h; simp [lastIsTerminal] at h)
